import Mathlib

/-!
Verification of the miniscript/descriptor FFI wrapper.

Byte strings (C `std::string` / `std::vector<unsigned char>` contents) are
modelled as `List Nat`, one entry per byte.  C pointers that may be null are
modelled as `Option`; a null output pointer is modelled by a `Bool` flag that
records whether the caller provided the pointer, and "the value written
through the pointer" is an `Option` in the result (`none` = nothing written).

Definitions are translated from `src/cpp/miniscript_wrapper.cpp`,
`src/cpp/descriptor_wrapper.cpp` and `src/cpp/stubs.cpp`.  The Bitcoin Core
miniscript engine (`script/miniscript.h`) and descriptor/key-io layers are
not part of this repository's sources; where a claim depends on them they
are modelled from the specification, and each such definition carries a
`Modelled from the spec:` doc comment.
-/

/-- Convert a Lean string literal to its byte list (ASCII). -/
def strBytes (s : String) : List Nat :=
  s.data.map Char.toNat

/-- The two script contexts, `miniscript::MiniscriptContext` in
`script/miniscript.h` as used by the wrapper (`P2WSH` and `TAPSCRIPT`). -/
inductive MsCtx where
  | p2wsh
  | tapscript
deriving DecidableEq, Repr

/-- `StringKey` from miniscript_wrapper.cpp: a key is an opaque string. -/
structure StringKey where
  str : List Nat
deriving DecidableEq, Repr

namespace StringKeyContext

/-- `StringKeyContext::FromString` (miniscript_wrapper.cpp lines 29-32):
accepts any character range as a key, without validation. -/
def FromString (s : List Nat) : Option StringKey :=
  some ⟨s⟩

/-- `StringKeyContext::ToString` (miniscript_wrapper.cpp lines 34-36):
returns the key's string unchanged. -/
def ToString (k : StringKey) : Option (List Nat) :=
  some k.str

/-- `StringKeyContext::KeyCompare` (miniscript_wrapper.cpp lines 38-40):
lexicographic order on the key strings. -/
def KeyCompare (a b : StringKey) : Bool :=
  decide (a.str < b.str)

/-- `StringKeyContext::ToPKBytes` (miniscript_wrapper.cpp lines 42-47):
a fixed all-zero vector, 32 bytes in Tapscript and 33 bytes otherwise,
ignoring the key entirely. -/
def ToPKBytes (ctx : MsCtx) (_key : StringKey) : List Nat :=
  match ctx with
  | .tapscript => List.replicate 32 0
  | .p2wsh => List.replicate 33 0

/-- `StringKeyContext::ToPKHBytes` (miniscript_wrapper.cpp lines 49-51):
a fixed 20-byte all-zero vector. -/
def ToPKHBytes (_ctx : MsCtx) (_key : StringKey) : List Nat :=
  List.replicate 20 0

/-- `StringKeyContext::FromPKBytes` (miniscript_wrapper.cpp lines 53-56):
always the placeholder key "decoded_key", whatever the bytes were. -/
def FromPKBytes (_bytes : List Nat) : Option StringKey :=
  some ⟨strBytes ("decoded_key")⟩

/-- `StringKeyContext::FromPKHBytes` (miniscript_wrapper.cpp lines 58-61):
always the placeholder key "decoded_pkh_key". -/
def FromPKHBytes (_bytes : List Nat) : Option StringKey :=
  some ⟨strBytes ("decoded_pkh_key")⟩

end StringKeyContext

/-- `HexDigit` from stubs.cpp lines 41-47: value of a hex digit character,
`none` for a non-hex character (the C function returns -1). -/
def hexDigitVal (c : Nat) : Option Nat :=
  if 48 ≤ c ∧ c ≤ 57 then some (c - 48)
  else if 97 ≤ c ∧ c ≤ 102 then some (c - 97 + 10)
  else if 65 ≤ c ∧ c ≤ 70 then some (c - 65 + 10)
  else none

/-- The `sscanf(p + i, "%02x", &byte)` loop body of
`CallbackSatisfier::ToPKBytes` (miniscript_wrapper.cpp lines 92-105),
iterated over the whole string in steps of two characters.  At each step
`sscanf` reads up to two hex digits: no leading hex digit is a matching
failure (`none`, the C code then falls back to a placeholder); one leading
hex digit followed by a non-digit, or at the end of the string, yields that
single digit's value, and the loop then skips to the next pair. -/
def hexPairScan : List Nat → Option (List Nat)
  | [] => some []
  | c1 :: rest =>
    match hexDigitVal c1 with
    | none => none
    | some v1 =>
      match rest with
      | [] => some [v1]
      | c2 :: rest2 =>
        match hexDigitVal c2 with
        | some v2 => (hexPairScan rest2).map (fun l => (v1 * 16 + v2) :: l)
        | none => (hexPairScan rest2).map (fun l => v1 :: l)

/-- The fixed placeholder key width: 32 bytes in Tapscript, 33 otherwise
(miniscript_wrapper.cpp lines 100-104 and 108-111). -/
def pkPlaceholder (ctx : MsCtx) : List Nat :=
  match ctx with
  | .tapscript => List.replicate 32 0
  | .p2wsh => List.replicate 33 0

namespace CallbackSatisfier

/-- `CallbackSatisfier::ToPKBytes` (miniscript_wrapper.cpp lines 88-112):
if the key string has at least two characters it is scanned as hex pairs;
on any scan failure, or for shorter strings, a fixed-width all-zero
placeholder is returned instead. -/
def ToPKBytes (ctx : MsCtx) (key : StringKey) : List Nat :=
  if key.str.length ≥ 2 then
    match hexPairScan key.str with
    | some bytes => bytes
    | none => pkPlaceholder ctx
  else
    pkPlaceholder ctx

/-- `CallbackSatisfier::ToPKHBytes` (miniscript_wrapper.cpp lines 114-116). -/
def ToPKHBytes (_ctx : MsCtx) (_key : StringKey) : List Nat :=
  List.replicate 20 0

end CallbackSatisfier

theorem hexPairScan_length :
    ∀ (l bytes : List Nat), hexPairScan l = some bytes →
      bytes.length = (l.length + 1) / 2
  | [], bytes, h => by
    simp [hexPairScan] at h
    simp [h]
  | [c1], bytes, h => by
    simp [hexPairScan] at h
    cases h1 : hexDigitVal c1 with
    | none => simp [h1] at h
    | some v1 =>
      simp [h1] at h
      simp [← h]
  | c1 :: c2 :: rest2, bytes, h => by
    simp only [hexPairScan] at h
    cases h1 : hexDigitVal c1 with
    | none => simp [h1] at h
    | some v1 =>
      simp only [h1] at h
      cases h3 : hexPairScan rest2 with
      | none =>
        cases h2 : hexDigitVal c2 <;> simp [h2, h3] at h
      | some l2 =>
        have hlen := hexPairScan_length rest2 l2 h3
        cases h2 : hexDigitVal c2 <;> simp [h2, h3] at h <;>
          · simp [← h, hlen]
            omega

/-- `miniscript::Availability` (`NO` / `YES` / `MAYBE`), also the C enum
`MiniscriptAvailability` of miniscript_wrapper.h. -/
inductive Availability where
  | no
  | yes
  | maybe
deriving DecidableEq, Repr

/-- The value a satisfier callback hands back: the availability, and the
bytes written through the output pointer (`none` models a null output
pointer; `some l` a buffer of `l.length` bytes). -/
structure CbReturn where
  avail : Availability
  out : Option (List Nat)

/-- `SatisfierCallbacks` of miniscript_wrapper.h: each callback slot may be
null.  Callbacks receive the serialized argument bytes. -/
structure SatisfierCallbacks where
  sign_callback : Option (List Nat → CbReturn)
  check_after_callback : Option (Nat → Bool)
  check_older_callback : Option (Nat → Bool)
  sat_sha256_callback : Option (List Nat → CbReturn)
  sat_ripemd160_callback : Option (List Nat → CbReturn)
  sat_hash256_callback : Option (List Nat → CbReturn)
  sat_hash160_callback : Option (List Nat → CbReturn)

namespace CallbackSatisfier

/-- `CallbackSatisfier::Sign` (miniscript_wrapper.cpp lines 129-168).
Returns the availability together with the signature buffer it assigned
(`none` when the code leaves `sig` unassigned).  On `YES` with a non-empty
callback buffer the callback's bytes are used; a `YES` with no bytes
degrades to `NO`; on `MAYBE` the callback's bytes are used when non-empty,
otherwise a 72-byte dummy filled with 0x30 is fabricated for size
estimation; anything else is `NO`. -/
def Sign (ctx : MsCtx) (cbs : Option SatisfierCallbacks) (key : StringKey) :
    Availability × Option (List Nat) :=
  match cbs with
  | none => (.no, none)
  | some cb =>
    match cb.sign_callback with
    | none => (.no, none)
    | some f =>
      let r := f (ToPKBytes ctx key)
      match r.avail, r.out with
      | .yes, some l => if l.length > 0 then (.yes, some l) else (.no, none)
      | .yes, none => (.no, none)
      | .maybe, some l =>
        if l.length > 0 then (.maybe, some l)
        else (.maybe, some (List.replicate 72 48))
      | .maybe, none => (.maybe, some (List.replicate 72 48))
      | .no, _ => (.no, none)

end CallbackSatisfier

/-!
## Expression tree

The recursive node structure of §3 of the design: terminal leaves,
single-child wrappers, and combinators, with `Thresh`/`Multi` taking N
children.  The underlying `miniscript::Node` type lives in Bitcoin Core's
`script/miniscript.h`, outside this repository's sources; the tree shape
below is modelled from the spec's data model (§3), with keys being the
wrapper's `StringKey`.
-/

mutual

inductive MsTree where
  | true_ : MsTree
  | false_ : MsTree
  | pk_k : StringKey → MsTree
  | pk_h : StringKey → MsTree
  | older : Nat → MsTree
  | after : Nat → MsTree
  | sha256 : List Nat → MsTree
  | hash256 : List Nat → MsTree
  | ripemd160 : List Nat → MsTree
  | hash160 : List Nat → MsTree
  | multi : Nat → List StringKey → MsTree
  | multi_a : Nat → List StringKey → MsTree
  | wrap_a : MsTree → MsTree
  | wrap_s : MsTree → MsTree
  | wrap_c : MsTree → MsTree
  | wrap_d : MsTree → MsTree
  | wrap_v : MsTree → MsTree
  | wrap_j : MsTree → MsTree
  | wrap_n : MsTree → MsTree
  | and_v : MsTree → MsTree → MsTree
  | and_b : MsTree → MsTree → MsTree
  | andor : MsTree → MsTree → MsTree → MsTree
  | or_b : MsTree → MsTree → MsTree
  | or_c : MsTree → MsTree → MsTree
  | or_d : MsTree → MsTree → MsTree
  | or_i : MsTree → MsTree → MsTree
  | thresh : Nat → MsTreeList → MsTree

inductive MsTreeList where
  | nil : MsTreeList
  | cons : MsTree → MsTreeList → MsTreeList

end

deriving instance DecidableEq for MsTree
deriving instance DecidableEq for MsTreeList

/-!
`sizeT` is the node count of a tree, counting one per node, per key of a
`multi`, and per child slot of a `thresh` list; used as a fuel bound for
the parser.
-/

mutual

def sizeT : MsTree → Nat
  | .true_ | .false_ | .pk_k _ | .pk_h _ | .older _ | .after _
  | .sha256 _ | .hash256 _ | .ripemd160 _ | .hash160 _ => 1
  | .multi _ ks => 1 + ks.length
  | .multi_a _ ks => 1 + ks.length
  | .wrap_a x | .wrap_s x | .wrap_c x | .wrap_d x
  | .wrap_v x | .wrap_j x | .wrap_n x => 1 + sizeT x
  | .and_v x y | .and_b x y | .or_b x y | .or_c x y
  | .or_d x y | .or_i x y => 1 + sizeT x + sizeT y
  | .andor x y z => 1 + sizeT x + sizeT y + sizeT z
  | .thresh _ subs => 1 + sizeL subs

def sizeL : MsTreeList → Nat
  | .nil => 1
  | .cons x xs => 1 + sizeT x + sizeL xs

end

/-!
## Textual notation (§4.1, §6)

`miniscript::FromString` / `Node::ToString` live in Bitcoin Core's
`script/miniscript.h`, outside this repository's sources.  The printer and
parser below are modelled from the spec: ASCII expression syntax, fragment
names followed by parenthesized comma-separated arguments, every fragment
name mapping to exactly one node kind and arity (§4.1, §6), key tokens
delegated to the key abstraction's text codec (`StringKeyContext.FromString`
/ `ToString`, which are from the source and accept any string unchanged).
Byte values: `(` 40, `)` 41, `,` 44, `:` 58, digits 48-57.
-/

/-- Decimal digit rendering of a natural number (ASCII bytes). -/
def printNat (n : Nat) : List Nat :=
  if n = 0 then [48] else ((Nat.digits 10 n).reverse).map (fun d => 48 + d)

/-- Lower-case hex character for a nibble. -/
def hexChar (v : Nat) : Nat :=
  if v < 10 then 48 + v else 87 + v

/-- Hex rendering of a byte list (two characters per byte). -/
def printHex (h : List Nat) : List Nat :=
  h.flatMap (fun b => [hexChar (b / 16), hexChar (b % 16)])

/-- Key-list rendering of a `multi`: a leading comma before each key. -/
def printKeys (ks : List StringKey) : List Nat :=
  ks.flatMap (fun k => 44 :: k.str)

mutual

/-- Modelled from the spec: the canonical textual notation produced by
`Node::ToString` — fragment names with parenthesized, comma-separated
arguments, wrapper characters followed by a colon, keys printed through the
key abstraction's `ToString` (the identity, per the source). -/
def msPrint : MsTree → List Nat
  | .true_ => [49]
  | .false_ => [48]
  | .pk_k k => strBytes ("pk_k(") ++ k.str ++ [41]
  | .pk_h k => strBytes ("pk_h(") ++ k.str ++ [41]
  | .older n => strBytes ("older(") ++ printNat n ++ [41]
  | .after n => strBytes ("after(") ++ printNat n ++ [41]
  | .sha256 h => strBytes ("sha256(") ++ printHex h ++ [41]
  | .hash256 h => strBytes ("hash256(") ++ printHex h ++ [41]
  | .ripemd160 h => strBytes ("ripemd160(") ++ printHex h ++ [41]
  | .hash160 h => strBytes ("hash160(") ++ printHex h ++ [41]
  | .multi k ks => strBytes ("multi(") ++ printNat k ++ printKeys ks ++ [41]
  | .multi_a k ks => strBytes ("multi_a(") ++ printNat k ++ printKeys ks ++ [41]
  | .wrap_a x => 97 :: 58 :: msPrint x
  | .wrap_s x => 115 :: 58 :: msPrint x
  | .wrap_c x => 99 :: 58 :: msPrint x
  | .wrap_d x => 100 :: 58 :: msPrint x
  | .wrap_v x => 118 :: 58 :: msPrint x
  | .wrap_j x => 106 :: 58 :: msPrint x
  | .wrap_n x => 110 :: 58 :: msPrint x
  | .and_v x y => strBytes ("and_v(") ++ msPrint x ++ 44 :: msPrint y ++ [41]
  | .and_b x y => strBytes ("and_b(") ++ msPrint x ++ 44 :: msPrint y ++ [41]
  | .andor x y z =>
    strBytes ("andor(") ++ msPrint x ++ 44 :: msPrint y ++ 44 :: msPrint z ++ [41]
  | .or_b x y => strBytes ("or_b(") ++ msPrint x ++ 44 :: msPrint y ++ [41]
  | .or_c x y => strBytes ("or_c(") ++ msPrint x ++ 44 :: msPrint y ++ [41]
  | .or_d x y => strBytes ("or_d(") ++ msPrint x ++ 44 :: msPrint y ++ [41]
  | .or_i x y => strBytes ("or_i(") ++ msPrint x ++ 44 :: msPrint y ++ [41]
  | .thresh k subs => strBytes ("thresh(") ++ printNat k ++ msPrintList subs ++ [41]

/-- Argument-list rendering of a `thresh`: a leading comma before each child. -/
def msPrintList : MsTreeList → List Nat
  | .nil => []
  | .cons x xs => 44 :: (msPrint x ++ msPrintList xs)

end

/-- A byte usable inside a key token: anything except `(`, `)` and `,`
(the expression grammar's only delimiters; the key abstraction itself
accepts any string). -/
def keyByte (b : Nat) : Bool :=
  b ≠ 40 && b ≠ 41 && b ≠ 44

/-- A decimal digit byte. -/
def digitByte (b : Nat) : Bool :=
  48 ≤ b && b ≤ 57

/-- Parse a decimal number: at least one digit, maximal munch. -/
def parseNatBytes (bs : List Nat) : Option (Nat × List Nat) :=
  let ds := bs.takeWhile digitByte
  if ds.isEmpty then none
  else some (ds.foldl (fun a d => a * 10 + (d - 48)) 0, bs.dropWhile digitByte)

/-- Parse a maximal run of hex-digit pairs, returning the decoded bytes and
the remainder (stops before any non-pair). -/
def parseHexRun : List Nat → (List Nat × List Nat)
  | c1 :: c2 :: rest =>
    match hexDigitVal c1, hexDigitVal c2 with
    | some v1, some v2 =>
      let r := parseHexRun rest
      ((v1 * 16 + v2) :: r.1, r.2)
    | _, _ => ([], c1 :: c2 :: rest)
  | l => ([], l)

/-- Parse the comma-led key list of a `multi`, ending at `)`. -/
def parseKeyList : Nat → List Nat → Option (List StringKey × List Nat)
  | _, 41 :: rest => some ([], rest)
  | Nat.succ fuel, 44 :: rest =>
    let key := rest.takeWhile keyByte
    let r1 := rest.dropWhile keyByte
    match parseKeyList fuel r1 with
    | none => none
    | some (ks, r2) => some (⟨key⟩ :: ks, r2)
  | _, _ => none

/-- Fragment header tags: one per fragment name / wrapper character of the
textual notation. -/
inductive MsFrag where
  | f0 | f1
  | wa | ws | wc | wd | wv | wj | wn
  | pkk | pkh
  | old | aft
  | sh256 | h256 | rmd160 | h160
  | mlt | mlta
  | av | ab | ao
  | ob | oc | od | oi
  | th
deriving DecidableEq, Repr

/-- Recognize a fragment header: the fragment name together with its opening
parenthesis, or a wrapper character followed by a colon, or the constants
`0` / `1`; returns the tag and the remaining input. -/
def msHeader : List Nat → Option (MsFrag × List Nat)
  | 48 :: rest => some (.f0, rest)
  | 49 :: rest => some (.f1, rest)
  | 97 :: 58 :: rest => some (.wa, rest)
  | 115 :: 58 :: rest => some (.ws, rest)
  | 99 :: 58 :: rest => some (.wc, rest)
  | 100 :: 58 :: rest => some (.wd, rest)
  | 118 :: 58 :: rest => some (.wv, rest)
  | 106 :: 58 :: rest => some (.wj, rest)
  | 110 :: 58 :: rest => some (.wn, rest)
  | 112 :: 107 :: 95 :: 107 :: 40 :: rest => some (.pkk, rest)
  | 112 :: 107 :: 95 :: 104 :: 40 :: rest => some (.pkh, rest)
  | 111 :: 108 :: 100 :: 101 :: 114 :: 40 :: rest => some (.old, rest)
  | 97 :: 102 :: 116 :: 101 :: 114 :: 40 :: rest => some (.aft, rest)
  | 115 :: 104 :: 97 :: 50 :: 53 :: 54 :: 40 :: rest => some (.sh256, rest)
  | 104 :: 97 :: 115 :: 104 :: 50 :: 53 :: 54 :: 40 :: rest => some (.h256, rest)
  | 114 :: 105 :: 112 :: 101 :: 109 :: 100 :: 49 :: 54 :: 48 :: 40 :: rest =>
    some (.rmd160, rest)
  | 104 :: 97 :: 115 :: 104 :: 49 :: 54 :: 48 :: 40 :: rest => some (.h160, rest)
  | 109 :: 117 :: 108 :: 116 :: 105 :: 40 :: rest => some (.mlt, rest)
  | 109 :: 117 :: 108 :: 116 :: 105 :: 95 :: 97 :: 40 :: rest => some (.mlta, rest)
  | 97 :: 110 :: 100 :: 95 :: 118 :: 40 :: rest => some (.av, rest)
  | 97 :: 110 :: 100 :: 95 :: 98 :: 40 :: rest => some (.ab, rest)
  | 97 :: 110 :: 100 :: 111 :: 114 :: 40 :: rest => some (.ao, rest)
  | 111 :: 114 :: 95 :: 98 :: 40 :: rest => some (.ob, rest)
  | 111 :: 114 :: 95 :: 99 :: 40 :: rest => some (.oc, rest)
  | 111 :: 114 :: 95 :: 100 :: 40 :: rest => some (.od, rest)
  | 111 :: 114 :: 95 :: 105 :: 40 :: rest => some (.oi, rest)
  | 116 :: 104 :: 114 :: 101 :: 115 :: 104 :: 40 :: rest => some (.th, rest)
  | _ => none

mutual

/-- Modelled from the spec: `miniscript::FromString`'s recursive-descent
parser over the fixed fragment vocabulary (§4.1) — each fragment name maps
to exactly one node kind and arity, wrapper characters are followed by a
colon, keys are taken by the key abstraction's text decoder (any bytes up
to the next delimiter), `multi` is only legal in the P2WSH context and
`multi_a` only in Tapscript.  Fuel-indexed; returns the parsed tree and the
unconsumed remainder. -/
def parseMs : Nat → MsCtx → List Nat → Option (MsTree × List Nat)
  | 0, _, _ => none
  | Nat.succ fuel, ctx, bs =>
    match msHeader bs with
    | none => none
    | some (frag, rest) =>
      match frag with
      | .f0 => some (.false_, rest)
      | .f1 => some (.true_, rest)
      | .wa => (parseMs fuel ctx rest).map (fun p => (.wrap_a p.1, p.2))
      | .ws => (parseMs fuel ctx rest).map (fun p => (.wrap_s p.1, p.2))
      | .wc => (parseMs fuel ctx rest).map (fun p => (.wrap_c p.1, p.2))
      | .wd => (parseMs fuel ctx rest).map (fun p => (.wrap_d p.1, p.2))
      | .wv => (parseMs fuel ctx rest).map (fun p => (.wrap_v p.1, p.2))
      | .wj => (parseMs fuel ctx rest).map (fun p => (.wrap_j p.1, p.2))
      | .wn => (parseMs fuel ctx rest).map (fun p => (.wrap_n p.1, p.2))
      | .pkk =>
        (match rest.dropWhile keyByte with
        | 41 :: r2 => some (.pk_k ⟨rest.takeWhile keyByte⟩, r2)
        | _ => none)
      | .pkh =>
        (match rest.dropWhile keyByte with
        | 41 :: r2 => some (.pk_h ⟨rest.takeWhile keyByte⟩, r2)
        | _ => none)
      | .old =>
        (match parseNatBytes rest with
        | some (n, 41 :: r2) => some (.older n, r2)
        | _ => none)
      | .aft =>
        (match parseNatBytes rest with
        | some (n, 41 :: r2) => some (.after n, r2)
        | _ => none)
      | .sh256 =>
        (match parseHexRun rest with
        | (h, 41 :: r2) => if h.length = 32 then some (.sha256 h, r2) else none
        | _ => none)
      | .h256 =>
        (match parseHexRun rest with
        | (h, 41 :: r2) => if h.length = 32 then some (.hash256 h, r2) else none
        | _ => none)
      | .rmd160 =>
        (match parseHexRun rest with
        | (h, 41 :: r2) => if h.length = 20 then some (.ripemd160 h, r2) else none
        | _ => none)
      | .h160 =>
        (match parseHexRun rest with
        | (h, 41 :: r2) => if h.length = 20 then some (.hash160 h, r2) else none
        | _ => none)
      | .mlt =>
        if ctx = .p2wsh then
          match parseNatBytes rest with
          | some (k, r1) =>
            match parseKeyList fuel r1 with
            | some (ks, r2) => some (.multi k ks, r2)
            | none => none
          | none => none
        else none
      | .mlta =>
        if ctx = .tapscript then
          match parseNatBytes rest with
          | some (k, r1) =>
            match parseKeyList fuel r1 with
            | some (ks, r2) => some (.multi_a k ks, r2)
            | none => none
          | none => none
        else none
      | .av =>
        (match parseMs fuel ctx rest with
        | some (x, 44 :: r1) =>
          match parseMs fuel ctx r1 with
          | some (y, 41 :: r2) => some (.and_v x y, r2)
          | _ => none
        | _ => none)
      | .ab =>
        (match parseMs fuel ctx rest with
        | some (x, 44 :: r1) =>
          match parseMs fuel ctx r1 with
          | some (y, 41 :: r2) => some (.and_b x y, r2)
          | _ => none
        | _ => none)
      | .ao =>
        (match parseMs fuel ctx rest with
        | some (x, 44 :: r1) =>
          match parseMs fuel ctx r1 with
          | some (y, 44 :: r2) =>
            match parseMs fuel ctx r2 with
            | some (z, 41 :: r3) => some (.andor x y z, r3)
            | _ => none
          | _ => none
        | _ => none)
      | .ob =>
        (match parseMs fuel ctx rest with
        | some (x, 44 :: r1) =>
          match parseMs fuel ctx r1 with
          | some (y, 41 :: r2) => some (.or_b x y, r2)
          | _ => none
        | _ => none)
      | .oc =>
        (match parseMs fuel ctx rest with
        | some (x, 44 :: r1) =>
          match parseMs fuel ctx r1 with
          | some (y, 41 :: r2) => some (.or_c x y, r2)
          | _ => none
        | _ => none)
      | .od =>
        (match parseMs fuel ctx rest with
        | some (x, 44 :: r1) =>
          match parseMs fuel ctx r1 with
          | some (y, 41 :: r2) => some (.or_d x y, r2)
          | _ => none
        | _ => none)
      | .oi =>
        (match parseMs fuel ctx rest with
        | some (x, 44 :: r1) =>
          match parseMs fuel ctx r1 with
          | some (y, 41 :: r2) => some (.or_i x y, r2)
          | _ => none
        | _ => none)
      | .th =>
        (match parseNatBytes rest with
        | some (k, r1) =>
          match parseSubs fuel ctx r1 with
          | some (subs, r2) => some (.thresh k subs, r2)
          | none => none
        | none => none)

/-- The comma-led child list of a `thresh`, ending at `)`. -/
def parseSubs : Nat → MsCtx → List Nat → Option (MsTreeList × List Nat)
  | 0, _, _ => none
  | Nat.succ fuel, ctx, bs =>
    match bs with
    | 41 :: rest => some (.nil, rest)
    | 44 :: rest =>
      match parseMs fuel ctx rest with
      | some (t, r1) =>
        match parseSubs fuel ctx r1 with
        | some (ts, r2) => some (.cons t ts, r2)
        | none => none
      | none => none
    | _ => none

end

mutual

/-- Trees in the image of the parser: keys contain no grammar delimiter,
hashes have the right length with byte-sized entries, and the
context-gated fragments appear only in their context. -/
def msWF : MsCtx → MsTree → Bool
  | _, .true_ => true
  | _, .false_ => true
  | _, .pk_k k => k.str.all keyByte
  | _, .pk_h k => k.str.all keyByte
  | _, .older _ => true
  | _, .after _ => true
  | _, .sha256 h => h.length = 32 && h.all (fun b => b < 256)
  | _, .hash256 h => h.length = 32 && h.all (fun b => b < 256)
  | _, .ripemd160 h => h.length = 20 && h.all (fun b => b < 256)
  | _, .hash160 h => h.length = 20 && h.all (fun b => b < 256)
  | ctx, .multi _ ks => decide (ctx = .p2wsh) && ks.all (fun k => k.str.all keyByte)
  | ctx, .multi_a _ ks => decide (ctx = .tapscript) && ks.all (fun k => k.str.all keyByte)
  | ctx, .wrap_a x => msWF ctx x
  | ctx, .wrap_s x => msWF ctx x
  | ctx, .wrap_c x => msWF ctx x
  | ctx, .wrap_d x => msWF ctx x
  | ctx, .wrap_v x => msWF ctx x
  | ctx, .wrap_j x => msWF ctx x
  | ctx, .wrap_n x => msWF ctx x
  | ctx, .and_v x y => msWF ctx x && msWF ctx y
  | ctx, .and_b x y => msWF ctx x && msWF ctx y
  | ctx, .andor x y z => msWF ctx x && msWF ctx y && msWF ctx z
  | ctx, .or_b x y => msWF ctx x && msWF ctx y
  | ctx, .or_c x y => msWF ctx x && msWF ctx y
  | ctx, .or_d x y => msWF ctx x && msWF ctx y
  | ctx, .or_i x y => msWF ctx x && msWF ctx y
  | ctx, .thresh _ subs => msWFList ctx subs

def msWFList : MsCtx → MsTreeList → Bool
  | _, .nil => true
  | ctx, .cons x xs => msWF ctx x && msWFList ctx xs

end

theorem takeWhile_all_append (p : Nat → Bool) :
    ∀ (l : List Nat) (c : Nat) (r : List Nat), l.all p = true → p c = false →
      (l ++ c :: r).takeWhile p = l ∧ (l ++ c :: r).dropWhile p = c :: r := by
  intro l c r hl hc
  induction l with
  | nil => simp [List.takeWhile_cons, List.dropWhile_cons, hc]
  | cons a l ih =>
    simp only [List.all_cons, Bool.and_eq_true] at hl
    have := ih hl.2
    simp [List.takeWhile_cons, List.dropWhile_cons, hl.1, this.1, this.2]

theorem foldr_base10 (ds : List Nat) :
    ds.foldr (fun d a => a * 10 + d) 0 = Nat.ofDigits 10 ds := by
  induction ds with
  | nil => simp [Nat.ofDigits]
  | cons d ds ih => simp [Nat.ofDigits, ih]; ring

theorem printNat_all_digits (n : Nat) : (printNat n).all digitByte = true := by
  unfold printNat
  split
  · decide
  · rw [List.all_map, List.all_reverse, List.all_eq_true]
    intro d hd
    have h10 : d < 10 := Nat.digits_lt_base (b := 10) (by norm_num) hd
    simp only [Function.comp_apply, digitByte, Bool.and_eq_true, decide_eq_true_eq]
    omega

theorem printNat_ne_nil (n : Nat) : (printNat n).isEmpty = false := by
  unfold printNat
  split
  · rfl
  · rename_i h
    have hne : Nat.digits 10 n ≠ [] := Nat.digits_ne_nil_iff_ne_zero.mpr h
    simp [List.isEmpty_eq_false, hne]

theorem printNat_val (n : Nat) :
    (printNat n).foldl (fun a d => a * 10 + (d - 48)) 0 = n := by
  unfold printNat
  split
  · rename_i h
    subst h
    rfl
  · rw [List.map_reverse, List.foldl_reverse, List.foldr_map]
    have : ∀ ds : List Nat,
        ds.foldr (fun d a => a * 10 + (48 + d - 48)) 0 = Nat.ofDigits 10 ds := by
      intro ds
      rw [← foldr_base10]
      congr 1
      funext d a
      omega
    rw [this, Nat.ofDigits_digits]

theorem parseNat_print (n : Nat) (c : Nat) (r : List Nat) (hc : digitByte c = false) :
    parseNatBytes (printNat n ++ c :: r) = some (n, c :: r) := by
  obtain ⟨h1, h2⟩ := takeWhile_all_append digitByte (printNat n) c r
    (printNat_all_digits n) hc
  simp [parseNatBytes, h1, h2, printNat_ne_nil, printNat_val]

theorem hexDigitVal_hexChar (v : Nat) (h : v < 16) :
    hexDigitVal (hexChar v) = some v := by
  interval_cases v <;> rfl

theorem parseHexRun_stop (c : Nat) (r : List Nat) (hc : hexDigitVal c = none) :
    parseHexRun (c :: r) = ([], c :: r) := by
  cases r with
  | nil => rfl
  | cons c2 r2 => simp [parseHexRun, hc]

theorem parseHexRun_print (h : List Nat) (hwf : h.all (fun b => b < 256) = true)
    (r : List Nat) : parseHexRun (printHex h ++ 41 :: r) = (h, 41 :: r) := by
  induction h with
  | nil =>
    simp only [printHex, List.flatMap_nil, List.nil_append]
    exact parseHexRun_stop 41 r (by rfl)
  | cons b h ih =>
    simp only [List.all_cons, Bool.and_eq_true, decide_eq_true_eq] at hwf
    have hdiv : b / 16 < 16 := by omega
    have hmod : b % 16 < 16 := by omega
    rw [show printHex (b :: h) = hexChar (b / 16) :: hexChar (b % 16) :: printHex h
        from by simp [printHex]]
    simp only [List.cons_append]
    rw [parseHexRun]
    simp only [hexDigitVal_hexChar _ hdiv, hexDigitVal_hexChar _ hmod]
    rw [ih hwf.2]
    have hb : b / 16 * 16 + b % 16 = b := by omega
    simp [hb]

theorem parseKeyList_print :
    ∀ (ks : List StringKey) (fuel : Nat) (r : List Nat),
      ks.length ≤ fuel → ks.all (fun k => k.str.all keyByte) = true →
      parseKeyList fuel (printKeys ks ++ 41 :: r) = some (ks, r) := by
  intro ks
  induction ks with
  | nil =>
    intro fuel r _ _
    simp only [printKeys, List.flatMap_nil, List.nil_append]
    cases fuel <;> rfl
  | cons k ks ih =>
    intro fuel r hf hks
    simp only [List.length_cons] at hf
    cases fuel with
    | zero => omega
    | succ f =>
      simp only [List.all_cons, Bool.and_eq_true] at hks
      have hbound : ∃ c t, printKeys ks ++ 41 :: r = c :: t ∧ keyByte c = false := by
        cases ks with
        | nil => exact ⟨41, r, by simp [printKeys], by rfl⟩
        | cons k2 ks2 =>
          exact ⟨44, k2.str ++ printKeys ks2 ++ 41 :: r,
            by simp [printKeys], by rfl⟩
      obtain ⟨c, t, hct, hcf⟩ := hbound
      rw [show printKeys (k :: ks) = 44 :: (k.str ++ printKeys ks)
        from by simp [printKeys]]
      simp only [List.cons_append, List.append_assoc]
      rw [hct]
      obtain ⟨htake, hdrop⟩ := takeWhile_all_append keyByte k.str c t hks.1 hcf
      simp only [parseKeyList]
      rw [htake, hdrop, ← hct, ih f r (by omega) hks.2]

theorem strBytes_pk_k : strBytes ("pk_k(") = [112, 107, 95, 107, 40] := rfl

theorem strBytes_pk_h : strBytes ("pk_h(") = [112, 107, 95, 104, 40] := rfl

theorem strBytes_older : strBytes ("older(") = [111, 108, 100, 101, 114, 40] := rfl

theorem strBytes_after : strBytes ("after(") = [97, 102, 116, 101, 114, 40] := rfl

theorem strBytes_sha256 : strBytes ("sha256(") = [115, 104, 97, 50, 53, 54, 40] := rfl

theorem strBytes_hash256 :
    strBytes ("hash256(") = [104, 97, 115, 104, 50, 53, 54, 40] := rfl

theorem strBytes_ripemd160 :
    strBytes ("ripemd160(") = [114, 105, 112, 101, 109, 100, 49, 54, 48, 40] := rfl

theorem strBytes_hash160 :
    strBytes ("hash160(") = [104, 97, 115, 104, 49, 54, 48, 40] := rfl

theorem strBytes_multi : strBytes ("multi(") = [109, 117, 108, 116, 105, 40] := rfl

theorem strBytes_multi_a :
    strBytes ("multi_a(") = [109, 117, 108, 116, 105, 95, 97, 40] := rfl

theorem strBytes_and_v : strBytes ("and_v(") = [97, 110, 100, 95, 118, 40] := rfl

theorem strBytes_and_b : strBytes ("and_b(") = [97, 110, 100, 95, 98, 40] := rfl

theorem strBytes_andor : strBytes ("andor(") = [97, 110, 100, 111, 114, 40] := rfl

theorem strBytes_or_b : strBytes ("or_b(") = [111, 114, 95, 98, 40] := rfl

theorem strBytes_or_c : strBytes ("or_c(") = [111, 114, 95, 99, 40] := rfl

theorem strBytes_or_d : strBytes ("or_d(") = [111, 114, 95, 100, 40] := rfl

theorem strBytes_or_i : strBytes ("or_i(") = [111, 114, 95, 105, 40] := rfl

theorem strBytes_thresh : strBytes ("thresh(") = [116, 104, 114, 101, 115, 104, 40] := rfl


theorem parseMs_eq_false (f : Nat) (ctx : MsCtx) (rest : List Nat) :
    parseMs (f + 1) ctx (48 :: rest) = some (.false_, rest) := rfl

theorem parseMs_eq_true (f : Nat) (ctx : MsCtx) (rest : List Nat) :
    parseMs (f + 1) ctx (49 :: rest) = some (.true_, rest) := rfl

theorem parseMs_eq_wrap_a (f : Nat) (ctx : MsCtx) (rest : List Nat) :
    parseMs (f + 1) ctx (97 :: 58 :: rest) =
      (parseMs f ctx rest).map (fun p => (.wrap_a p.1, p.2)) := rfl

theorem parseMs_eq_wrap_s (f : Nat) (ctx : MsCtx) (rest : List Nat) :
    parseMs (f + 1) ctx (115 :: 58 :: rest) =
      (parseMs f ctx rest).map (fun p => (.wrap_s p.1, p.2)) := rfl

theorem parseMs_eq_wrap_c (f : Nat) (ctx : MsCtx) (rest : List Nat) :
    parseMs (f + 1) ctx (99 :: 58 :: rest) =
      (parseMs f ctx rest).map (fun p => (.wrap_c p.1, p.2)) := rfl

theorem parseMs_eq_wrap_d (f : Nat) (ctx : MsCtx) (rest : List Nat) :
    parseMs (f + 1) ctx (100 :: 58 :: rest) =
      (parseMs f ctx rest).map (fun p => (.wrap_d p.1, p.2)) := rfl

theorem parseMs_eq_wrap_v (f : Nat) (ctx : MsCtx) (rest : List Nat) :
    parseMs (f + 1) ctx (118 :: 58 :: rest) =
      (parseMs f ctx rest).map (fun p => (.wrap_v p.1, p.2)) := rfl

theorem parseMs_eq_wrap_j (f : Nat) (ctx : MsCtx) (rest : List Nat) :
    parseMs (f + 1) ctx (106 :: 58 :: rest) =
      (parseMs f ctx rest).map (fun p => (.wrap_j p.1, p.2)) := rfl

theorem parseMs_eq_wrap_n (f : Nat) (ctx : MsCtx) (rest : List Nat) :
    parseMs (f + 1) ctx (110 :: 58 :: rest) =
      (parseMs f ctx rest).map (fun p => (.wrap_n p.1, p.2)) := rfl

theorem parseMs_eq_pk_k (f : Nat) (ctx : MsCtx) (rest : List Nat) :
    parseMs (f + 1) ctx (112 :: 107 :: 95 :: 107 :: 40 :: rest) =
      match rest.dropWhile keyByte with
      | 41 :: r2 => some (.pk_k ⟨rest.takeWhile keyByte⟩, r2)
      | _ => none := rfl

theorem parseMs_eq_pk_h (f : Nat) (ctx : MsCtx) (rest : List Nat) :
    parseMs (f + 1) ctx (112 :: 107 :: 95 :: 104 :: 40 :: rest) =
      match rest.dropWhile keyByte with
      | 41 :: r2 => some (.pk_h ⟨rest.takeWhile keyByte⟩, r2)
      | _ => none := rfl

theorem parseMs_eq_older (f : Nat) (ctx : MsCtx) (rest : List Nat) :
    parseMs (f + 1) ctx (111 :: 108 :: 100 :: 101 :: 114 :: 40 :: rest) =
      match parseNatBytes rest with
      | some (n, 41 :: r2) => some (.older n, r2)
      | _ => none := rfl

theorem parseMs_eq_after (f : Nat) (ctx : MsCtx) (rest : List Nat) :
    parseMs (f + 1) ctx (97 :: 102 :: 116 :: 101 :: 114 :: 40 :: rest) =
      match parseNatBytes rest with
      | some (n, 41 :: r2) => some (.after n, r2)
      | _ => none := rfl

theorem parseMs_eq_sha256 (f : Nat) (ctx : MsCtx) (rest : List Nat) :
    parseMs (f + 1) ctx (115 :: 104 :: 97 :: 50 :: 53 :: 54 :: 40 :: rest) =
      match parseHexRun rest with
      | (h, 41 :: r2) => if h.length = 32 then some (.sha256 h, r2) else none
      | _ => none := rfl

theorem parseMs_eq_hash256 (f : Nat) (ctx : MsCtx) (rest : List Nat) :
    parseMs (f + 1) ctx (104 :: 97 :: 115 :: 104 :: 50 :: 53 :: 54 :: 40 :: rest) =
      match parseHexRun rest with
      | (h, 41 :: r2) => if h.length = 32 then some (.hash256 h, r2) else none
      | _ => none := rfl

theorem parseMs_eq_ripemd160 (f : Nat) (ctx : MsCtx) (rest : List Nat) :
    parseMs (f + 1) ctx
        (114 :: 105 :: 112 :: 101 :: 109 :: 100 :: 49 :: 54 :: 48 :: 40 :: rest) =
      match parseHexRun rest with
      | (h, 41 :: r2) => if h.length = 20 then some (.ripemd160 h, r2) else none
      | _ => none := rfl

theorem parseMs_eq_hash160 (f : Nat) (ctx : MsCtx) (rest : List Nat) :
    parseMs (f + 1) ctx (104 :: 97 :: 115 :: 104 :: 49 :: 54 :: 48 :: 40 :: rest) =
      match parseHexRun rest with
      | (h, 41 :: r2) => if h.length = 20 then some (.hash160 h, r2) else none
      | _ => none := rfl

theorem parseMs_eq_multi (f : Nat) (ctx : MsCtx) (rest : List Nat) :
    parseMs (f + 1) ctx (109 :: 117 :: 108 :: 116 :: 105 :: 40 :: rest) =
      if ctx = .p2wsh then
        match parseNatBytes rest with
        | some (k, r1) =>
          match parseKeyList f r1 with
          | some (ks, r2) => some (.multi k ks, r2)
          | none => none
        | none => none
      else none := rfl

theorem parseMs_eq_multi_a (f : Nat) (ctx : MsCtx) (rest : List Nat) :
    parseMs (f + 1) ctx (109 :: 117 :: 108 :: 116 :: 105 :: 95 :: 97 :: 40 :: rest) =
      if ctx = .tapscript then
        match parseNatBytes rest with
        | some (k, r1) =>
          match parseKeyList f r1 with
          | some (ks, r2) => some (.multi_a k ks, r2)
          | none => none
        | none => none
      else none := rfl

theorem parseMs_eq_and_v (f : Nat) (ctx : MsCtx) (rest : List Nat) :
    parseMs (f + 1) ctx (97 :: 110 :: 100 :: 95 :: 118 :: 40 :: rest) =
      match parseMs f ctx rest with
      | some (x, 44 :: r1) =>
        match parseMs f ctx r1 with
        | some (y, 41 :: r2) => some (.and_v x y, r2)
        | _ => none
      | _ => none := rfl

theorem parseMs_eq_and_b (f : Nat) (ctx : MsCtx) (rest : List Nat) :
    parseMs (f + 1) ctx (97 :: 110 :: 100 :: 95 :: 98 :: 40 :: rest) =
      match parseMs f ctx rest with
      | some (x, 44 :: r1) =>
        match parseMs f ctx r1 with
        | some (y, 41 :: r2) => some (.and_b x y, r2)
        | _ => none
      | _ => none := rfl

theorem parseMs_eq_andor (f : Nat) (ctx : MsCtx) (rest : List Nat) :
    parseMs (f + 1) ctx (97 :: 110 :: 100 :: 111 :: 114 :: 40 :: rest) =
      match parseMs f ctx rest with
      | some (x, 44 :: r1) =>
        match parseMs f ctx r1 with
        | some (y, 44 :: r2) =>
          match parseMs f ctx r2 with
          | some (z, 41 :: r3) => some (.andor x y z, r3)
          | _ => none
        | _ => none
      | _ => none := rfl

theorem parseMs_eq_or_b (f : Nat) (ctx : MsCtx) (rest : List Nat) :
    parseMs (f + 1) ctx (111 :: 114 :: 95 :: 98 :: 40 :: rest) =
      match parseMs f ctx rest with
      | some (x, 44 :: r1) =>
        match parseMs f ctx r1 with
        | some (y, 41 :: r2) => some (.or_b x y, r2)
        | _ => none
      | _ => none := rfl

theorem parseMs_eq_or_c (f : Nat) (ctx : MsCtx) (rest : List Nat) :
    parseMs (f + 1) ctx (111 :: 114 :: 95 :: 99 :: 40 :: rest) =
      match parseMs f ctx rest with
      | some (x, 44 :: r1) =>
        match parseMs f ctx r1 with
        | some (y, 41 :: r2) => some (.or_c x y, r2)
        | _ => none
      | _ => none := rfl

theorem parseMs_eq_or_d (f : Nat) (ctx : MsCtx) (rest : List Nat) :
    parseMs (f + 1) ctx (111 :: 114 :: 95 :: 100 :: 40 :: rest) =
      match parseMs f ctx rest with
      | some (x, 44 :: r1) =>
        match parseMs f ctx r1 with
        | some (y, 41 :: r2) => some (.or_d x y, r2)
        | _ => none
      | _ => none := rfl

theorem parseMs_eq_or_i (f : Nat) (ctx : MsCtx) (rest : List Nat) :
    parseMs (f + 1) ctx (111 :: 114 :: 95 :: 105 :: 40 :: rest) =
      match parseMs f ctx rest with
      | some (x, 44 :: r1) =>
        match parseMs f ctx r1 with
        | some (y, 41 :: r2) => some (.or_i x y, r2)
        | _ => none
      | _ => none := rfl

theorem parseMs_eq_thresh (f : Nat) (ctx : MsCtx) (rest : List Nat) :
    parseMs (f + 1) ctx (116 :: 104 :: 114 :: 101 :: 115 :: 104 :: 40 :: rest) =
      match parseNatBytes rest with
      | some (k, r1) =>
        match parseSubs f ctx r1 with
        | some (subs, r2) => some (.thresh k subs, r2)
        | none => none
      | none => none := rfl

theorem parseSubs_eq_close (f : Nat) (ctx : MsCtx) (rest : List Nat) :
    parseSubs (f + 1) ctx (41 :: rest) = some (.nil, rest) := rfl

theorem parseSubs_eq_comma (f : Nat) (ctx : MsCtx) (rest : List Nat) :
    parseSubs (f + 1) ctx (44 :: rest) =
      match parseMs f ctx rest with
      | some (t, r1) =>
        match parseSubs f ctx r1 with
        | some (ts, r2) => some (.cons t ts, r2)
        | none => none
      | none => none := rfl

mutual

/-- Printing a well-formed tree and re-parsing it (with enough fuel)
recovers the tree exactly, leaving the remainder untouched. -/
theorem parseMs_print :
    ∀ (t : MsTree) (ctx : MsCtx), msWF ctx t = true →
      ∀ (fuel : Nat) (r : List Nat), sizeT t ≤ fuel →
        parseMs fuel ctx (msPrint t ++ r) = some (t, r)
  | .true_, ctx, _, fuel, r, hs => by
    simp only [sizeT] at hs
    cases fuel with
    | zero => omega
    | succ f =>
      have hnorm : msPrint MsTree.true_ ++ r = 49 :: r := by simp [msPrint]
      rw [hnorm, parseMs_eq_true]
  | .false_, ctx, _, fuel, r, hs => by
    simp only [sizeT] at hs
    cases fuel with
    | zero => omega
    | succ f =>
      have hnorm : msPrint MsTree.false_ ++ r = 48 :: r := by simp [msPrint]
      rw [hnorm, parseMs_eq_false]
  | .pk_k k, ctx, hwf, fuel, r, hs => by
    simp only [msWF] at hwf
    simp only [sizeT] at hs
    cases fuel with
    | zero => omega
    | succ f =>
      obtain ⟨htake, hdrop⟩ := takeWhile_all_append keyByte k.str 41 r hwf rfl
      have hnorm : msPrint (MsTree.pk_k k) ++ r =
          112 :: 107 :: 95 :: 107 :: 40 :: (k.str ++ 41 :: r) := by
        simp [msPrint, strBytes_pk_k]
      rw [hnorm, parseMs_eq_pk_k, htake, hdrop]
  | .pk_h k, ctx, hwf, fuel, r, hs => by
    simp only [msWF] at hwf
    simp only [sizeT] at hs
    cases fuel with
    | zero => omega
    | succ f =>
      obtain ⟨htake, hdrop⟩ := takeWhile_all_append keyByte k.str 41 r hwf rfl
      have hnorm : msPrint (MsTree.pk_h k) ++ r =
          112 :: 107 :: 95 :: 104 :: 40 :: (k.str ++ 41 :: r) := by
        simp [msPrint, strBytes_pk_h]
      rw [hnorm, parseMs_eq_pk_h, htake, hdrop]
  | .older n, ctx, _, fuel, r, hs => by
    simp only [sizeT] at hs
    cases fuel with
    | zero => omega
    | succ f =>
      have hnorm : msPrint (MsTree.older n) ++ r =
          111 :: 108 :: 100 :: 101 :: 114 :: 40 :: (printNat n ++ 41 :: r) := by
        simp [msPrint, strBytes_older]
      rw [hnorm, parseMs_eq_older, parseNat_print n 41 r rfl]
  | .after n, ctx, _, fuel, r, hs => by
    simp only [sizeT] at hs
    cases fuel with
    | zero => omega
    | succ f =>
      have hnorm : msPrint (MsTree.after n) ++ r =
          97 :: 102 :: 116 :: 101 :: 114 :: 40 :: (printNat n ++ 41 :: r) := by
        simp [msPrint, strBytes_after]
      rw [hnorm, parseMs_eq_after, parseNat_print n 41 r rfl]
  | .sha256 h, ctx, hwf, fuel, r, hs => by
    simp only [msWF, Bool.and_eq_true, decide_eq_true_eq] at hwf
    simp only [sizeT] at hs
    cases fuel with
    | zero => omega
    | succ f =>
      have hnorm : msPrint (MsTree.sha256 h) ++ r =
          115 :: 104 :: 97 :: 50 :: 53 :: 54 :: 40 :: (printHex h ++ 41 :: r) := by
        simp [msPrint, strBytes_sha256]
      rw [hnorm, parseMs_eq_sha256, parseHexRun_print h hwf.2 r]
      simp [hwf.1]
  | .hash256 h, ctx, hwf, fuel, r, hs => by
    simp only [msWF, Bool.and_eq_true, decide_eq_true_eq] at hwf
    simp only [sizeT] at hs
    cases fuel with
    | zero => omega
    | succ f =>
      have hnorm : msPrint (MsTree.hash256 h) ++ r =
          104 :: 97 :: 115 :: 104 :: 50 :: 53 :: 54 :: 40 :: (printHex h ++ 41 :: r) := by
        simp [msPrint, strBytes_hash256]
      rw [hnorm, parseMs_eq_hash256, parseHexRun_print h hwf.2 r]
      simp [hwf.1]
  | .ripemd160 h, ctx, hwf, fuel, r, hs => by
    simp only [msWF, Bool.and_eq_true, decide_eq_true_eq] at hwf
    simp only [sizeT] at hs
    cases fuel with
    | zero => omega
    | succ f =>
      have hnorm : msPrint (MsTree.ripemd160 h) ++ r =
          114 :: 105 :: 112 :: 101 :: 109 :: 100 :: 49 :: 54 :: 48 :: 40 ::
            (printHex h ++ 41 :: r) := by
        simp [msPrint, strBytes_ripemd160]
      rw [hnorm, parseMs_eq_ripemd160, parseHexRun_print h hwf.2 r]
      simp [hwf.1]
  | .hash160 h, ctx, hwf, fuel, r, hs => by
    simp only [msWF, Bool.and_eq_true, decide_eq_true_eq] at hwf
    simp only [sizeT] at hs
    cases fuel with
    | zero => omega
    | succ f =>
      have hnorm : msPrint (MsTree.hash160 h) ++ r =
          104 :: 97 :: 115 :: 104 :: 49 :: 54 :: 48 :: 40 :: (printHex h ++ 41 :: r) := by
        simp [msPrint, strBytes_hash160]
      rw [hnorm, parseMs_eq_hash160, parseHexRun_print h hwf.2 r]
      simp [hwf.1]
  | .multi k ks, ctx, hwf, fuel, r, hs => by
    simp only [msWF, Bool.and_eq_true] at hwf
    have hctx : ctx = .p2wsh := of_decide_eq_true hwf.1
    subst hctx
    simp only [sizeT] at hs
    cases fuel with
    | zero => omega
    | succ f =>
      obtain ⟨c, t2, hct, hdig⟩ :
          ∃ c t2, printKeys ks ++ 41 :: r = c :: t2 ∧ digitByte c = false := by
        cases ks with
        | nil => exact ⟨41, r, by simp [printKeys], rfl⟩
        | cons a l =>
          exact ⟨44, a.str ++ (printKeys l ++ 41 :: r), by simp [printKeys], rfl⟩
      have hkeys : parseKeyList f (c :: t2) = some (ks, r) := by
        rw [← hct]
        exact parseKeyList_print ks f r (by omega) hwf.2
      have hnorm : msPrint (MsTree.multi k ks) ++ r =
          109 :: 117 :: 108 :: 116 :: 105 :: 40 :: (printNat k ++ (c :: t2)) := by
        rw [← hct]
        simp [msPrint, strBytes_multi]
      rw [hnorm, parseMs_eq_multi, if_pos rfl, parseNat_print k c t2 hdig]
      simp [hkeys]
  | .multi_a k ks, ctx, hwf, fuel, r, hs => by
    simp only [msWF, Bool.and_eq_true] at hwf
    have hctx : ctx = .tapscript := of_decide_eq_true hwf.1
    subst hctx
    simp only [sizeT] at hs
    cases fuel with
    | zero => omega
    | succ f =>
      obtain ⟨c, t2, hct, hdig⟩ :
          ∃ c t2, printKeys ks ++ 41 :: r = c :: t2 ∧ digitByte c = false := by
        cases ks with
        | nil => exact ⟨41, r, by simp [printKeys], rfl⟩
        | cons a l =>
          exact ⟨44, a.str ++ (printKeys l ++ 41 :: r), by simp [printKeys], rfl⟩
      have hkeys : parseKeyList f (c :: t2) = some (ks, r) := by
        rw [← hct]
        exact parseKeyList_print ks f r (by omega) hwf.2
      have hnorm : msPrint (MsTree.multi_a k ks) ++ r =
          109 :: 117 :: 108 :: 116 :: 105 :: 95 :: 97 :: 40 ::
            (printNat k ++ (c :: t2)) := by
        rw [← hct]
        simp [msPrint, strBytes_multi_a]
      rw [hnorm, parseMs_eq_multi_a, if_pos rfl, parseNat_print k c t2 hdig]
      simp [hkeys]
  | .wrap_a x, ctx, hwf, fuel, r, hs => by
    simp only [msWF] at hwf
    simp only [sizeT] at hs
    cases fuel with
    | zero => omega
    | succ f =>
      have ih := parseMs_print x ctx hwf f r (by omega)
      have hnorm : msPrint (MsTree.wrap_a x) ++ r = 97 :: 58 :: (msPrint x ++ r) := by
        simp [msPrint]
      rw [hnorm, parseMs_eq_wrap_a, ih]
      rfl
  | .wrap_s x, ctx, hwf, fuel, r, hs => by
    simp only [msWF] at hwf
    simp only [sizeT] at hs
    cases fuel with
    | zero => omega
    | succ f =>
      have ih := parseMs_print x ctx hwf f r (by omega)
      have hnorm : msPrint (MsTree.wrap_s x) ++ r = 115 :: 58 :: (msPrint x ++ r) := by
        simp [msPrint]
      rw [hnorm, parseMs_eq_wrap_s, ih]
      rfl
  | .wrap_c x, ctx, hwf, fuel, r, hs => by
    simp only [msWF] at hwf
    simp only [sizeT] at hs
    cases fuel with
    | zero => omega
    | succ f =>
      have ih := parseMs_print x ctx hwf f r (by omega)
      have hnorm : msPrint (MsTree.wrap_c x) ++ r = 99 :: 58 :: (msPrint x ++ r) := by
        simp [msPrint]
      rw [hnorm, parseMs_eq_wrap_c, ih]
      rfl
  | .wrap_d x, ctx, hwf, fuel, r, hs => by
    simp only [msWF] at hwf
    simp only [sizeT] at hs
    cases fuel with
    | zero => omega
    | succ f =>
      have ih := parseMs_print x ctx hwf f r (by omega)
      have hnorm : msPrint (MsTree.wrap_d x) ++ r = 100 :: 58 :: (msPrint x ++ r) := by
        simp [msPrint]
      rw [hnorm, parseMs_eq_wrap_d, ih]
      rfl
  | .wrap_v x, ctx, hwf, fuel, r, hs => by
    simp only [msWF] at hwf
    simp only [sizeT] at hs
    cases fuel with
    | zero => omega
    | succ f =>
      have ih := parseMs_print x ctx hwf f r (by omega)
      have hnorm : msPrint (MsTree.wrap_v x) ++ r = 118 :: 58 :: (msPrint x ++ r) := by
        simp [msPrint]
      rw [hnorm, parseMs_eq_wrap_v, ih]
      rfl
  | .wrap_j x, ctx, hwf, fuel, r, hs => by
    simp only [msWF] at hwf
    simp only [sizeT] at hs
    cases fuel with
    | zero => omega
    | succ f =>
      have ih := parseMs_print x ctx hwf f r (by omega)
      have hnorm : msPrint (MsTree.wrap_j x) ++ r = 106 :: 58 :: (msPrint x ++ r) := by
        simp [msPrint]
      rw [hnorm, parseMs_eq_wrap_j, ih]
      rfl
  | .wrap_n x, ctx, hwf, fuel, r, hs => by
    simp only [msWF] at hwf
    simp only [sizeT] at hs
    cases fuel with
    | zero => omega
    | succ f =>
      have ih := parseMs_print x ctx hwf f r (by omega)
      have hnorm : msPrint (MsTree.wrap_n x) ++ r = 110 :: 58 :: (msPrint x ++ r) := by
        simp [msPrint]
      rw [hnorm, parseMs_eq_wrap_n, ih]
      rfl
  | .and_v x y, ctx, hwf, fuel, r, hs => by
    simp only [msWF, Bool.and_eq_true] at hwf
    simp only [sizeT] at hs
    cases fuel with
    | zero => omega
    | succ f =>
      have ihx := parseMs_print x ctx hwf.1 f (44 :: (msPrint y ++ 41 :: r)) (by omega)
      have ihy := parseMs_print y ctx hwf.2 f (41 :: r) (by omega)
      have hnorm : msPrint (MsTree.and_v x y) ++ r =
          97 :: 110 :: 100 :: 95 :: 118 :: 40 ::
            (msPrint x ++ (44 :: (msPrint y ++ 41 :: r))) := by
        simp [msPrint, strBytes_and_v]
      rw [hnorm, parseMs_eq_and_v, ihx]
      simp [ihy]
  | .and_b x y, ctx, hwf, fuel, r, hs => by
    simp only [msWF, Bool.and_eq_true] at hwf
    simp only [sizeT] at hs
    cases fuel with
    | zero => omega
    | succ f =>
      have ihx := parseMs_print x ctx hwf.1 f (44 :: (msPrint y ++ 41 :: r)) (by omega)
      have ihy := parseMs_print y ctx hwf.2 f (41 :: r) (by omega)
      have hnorm : msPrint (MsTree.and_b x y) ++ r =
          97 :: 110 :: 100 :: 95 :: 98 :: 40 ::
            (msPrint x ++ (44 :: (msPrint y ++ 41 :: r))) := by
        simp [msPrint, strBytes_and_b]
      rw [hnorm, parseMs_eq_and_b, ihx]
      simp [ihy]
  | .andor x y z, ctx, hwf, fuel, r, hs => by
    simp only [msWF, Bool.and_eq_true] at hwf
    simp only [sizeT] at hs
    cases fuel with
    | zero => omega
    | succ f =>
      have ihx := parseMs_print x ctx hwf.1.1 f
        (44 :: (msPrint y ++ 44 :: (msPrint z ++ 41 :: r))) (by omega)
      have ihy := parseMs_print y ctx hwf.1.2 f
        (44 :: (msPrint z ++ 41 :: r)) (by omega)
      have ihz := parseMs_print z ctx hwf.2 f (41 :: r) (by omega)
      have hnorm : msPrint (MsTree.andor x y z) ++ r =
          97 :: 110 :: 100 :: 111 :: 114 :: 40 ::
            (msPrint x ++ (44 :: (msPrint y ++ 44 :: (msPrint z ++ 41 :: r)))) := by
        simp [msPrint, strBytes_andor]
      rw [hnorm, parseMs_eq_andor, ihx]
      simp [ihy, ihz]
  | .or_b x y, ctx, hwf, fuel, r, hs => by
    simp only [msWF, Bool.and_eq_true] at hwf
    simp only [sizeT] at hs
    cases fuel with
    | zero => omega
    | succ f =>
      have ihx := parseMs_print x ctx hwf.1 f (44 :: (msPrint y ++ 41 :: r)) (by omega)
      have ihy := parseMs_print y ctx hwf.2 f (41 :: r) (by omega)
      have hnorm : msPrint (MsTree.or_b x y) ++ r =
          111 :: 114 :: 95 :: 98 :: 40 ::
            (msPrint x ++ (44 :: (msPrint y ++ 41 :: r))) := by
        simp [msPrint, strBytes_or_b]
      rw [hnorm, parseMs_eq_or_b, ihx]
      simp [ihy]
  | .or_c x y, ctx, hwf, fuel, r, hs => by
    simp only [msWF, Bool.and_eq_true] at hwf
    simp only [sizeT] at hs
    cases fuel with
    | zero => omega
    | succ f =>
      have ihx := parseMs_print x ctx hwf.1 f (44 :: (msPrint y ++ 41 :: r)) (by omega)
      have ihy := parseMs_print y ctx hwf.2 f (41 :: r) (by omega)
      have hnorm : msPrint (MsTree.or_c x y) ++ r =
          111 :: 114 :: 95 :: 99 :: 40 ::
            (msPrint x ++ (44 :: (msPrint y ++ 41 :: r))) := by
        simp [msPrint, strBytes_or_c]
      rw [hnorm, parseMs_eq_or_c, ihx]
      simp [ihy]
  | .or_d x y, ctx, hwf, fuel, r, hs => by
    simp only [msWF, Bool.and_eq_true] at hwf
    simp only [sizeT] at hs
    cases fuel with
    | zero => omega
    | succ f =>
      have ihx := parseMs_print x ctx hwf.1 f (44 :: (msPrint y ++ 41 :: r)) (by omega)
      have ihy := parseMs_print y ctx hwf.2 f (41 :: r) (by omega)
      have hnorm : msPrint (MsTree.or_d x y) ++ r =
          111 :: 114 :: 95 :: 100 :: 40 ::
            (msPrint x ++ (44 :: (msPrint y ++ 41 :: r))) := by
        simp [msPrint, strBytes_or_d]
      rw [hnorm, parseMs_eq_or_d, ihx]
      simp [ihy]
  | .or_i x y, ctx, hwf, fuel, r, hs => by
    simp only [msWF, Bool.and_eq_true] at hwf
    simp only [sizeT] at hs
    cases fuel with
    | zero => omega
    | succ f =>
      have ihx := parseMs_print x ctx hwf.1 f (44 :: (msPrint y ++ 41 :: r)) (by omega)
      have ihy := parseMs_print y ctx hwf.2 f (41 :: r) (by omega)
      have hnorm : msPrint (MsTree.or_i x y) ++ r =
          111 :: 114 :: 95 :: 105 :: 40 ::
            (msPrint x ++ (44 :: (msPrint y ++ 41 :: r))) := by
        simp [msPrint, strBytes_or_i]
      rw [hnorm, parseMs_eq_or_i, ihx]
      simp [ihy]
  | .thresh k subs, ctx, hwf, fuel, r, hs => by
    simp only [msWF] at hwf
    simp only [sizeT] at hs
    cases fuel with
    | zero => omega
    | succ f =>
      obtain ⟨c, t2, hct, hdig⟩ :
          ∃ c t2, msPrintList subs ++ 41 :: r = c :: t2 ∧ digitByte c = false := by
        cases subs with
        | nil => exact ⟨41, r, by simp [msPrintList], rfl⟩
        | cons a l =>
          exact ⟨44, msPrint a ++ (msPrintList l ++ 41 :: r),
            by simp [msPrintList], rfl⟩
      have hsubs : parseSubs f ctx (c :: t2) = some (subs, r) := by
        rw [← hct]
        exact parseSubs_print subs ctx hwf f r (by omega)
      have hnorm : msPrint (MsTree.thresh k subs) ++ r =
          116 :: 104 :: 114 :: 101 :: 115 :: 104 :: 40 ::
            (printNat k ++ (c :: t2)) := by
        rw [← hct]
        simp [msPrint, strBytes_thresh]
      rw [hnorm, parseMs_eq_thresh, parseNat_print k c t2 hdig]
      simp [hsubs]

/-- Printing a well-formed child list and re-parsing it (with enough fuel)
recovers the list, consuming the closing parenthesis. -/
theorem parseSubs_print :
    ∀ (l : MsTreeList) (ctx : MsCtx), msWFList ctx l = true →
      ∀ (fuel : Nat) (r : List Nat), sizeL l ≤ fuel →
        parseSubs fuel ctx (msPrintList l ++ 41 :: r) = some (l, r)
  | .nil, ctx, _, fuel, r, hs => by
    simp only [sizeL] at hs
    cases fuel with
    | zero => omega
    | succ f =>
      have hnorm : msPrintList MsTreeList.nil ++ 41 :: r = 41 :: r := by
        simp [msPrintList]
      rw [hnorm, parseSubs_eq_close]
  | .cons x xs, ctx, hwf, fuel, r, hs => by
    simp only [msWFList, Bool.and_eq_true] at hwf
    simp only [sizeL] at hs
    cases fuel with
    | zero => omega
    | succ f =>
      have ihx := parseMs_print x ctx hwf.1 f (msPrintList xs ++ 41 :: r) (by omega)
      have ihxs := parseSubs_print xs ctx hwf.2 f r (by omega)
      have hnorm : msPrintList (MsTreeList.cons x xs) ++ 41 :: r =
          44 :: (msPrint x ++ (msPrintList xs ++ 41 :: r)) := by
        simp [msPrintList]
      rw [hnorm, parseSubs_eq_comma, ihx]
      simp [ihxs]

end

theorem all_takeWhile (p : Nat → Bool) (l : List Nat) :
    (l.takeWhile p).all p = true := by
  rw [List.all_eq_true]
  intro x hx
  exact List.mem_takeWhile_imp hx

theorem hexDigitVal_lt (c v : Nat) (h : hexDigitVal c = some v) : v < 16 := by
  unfold hexDigitVal at h
  split at h
  · simp at h
    omega
  · split at h
    · simp at h
      omega
    · split at h
      · simp at h
        omega
      · simp at h

theorem parseHexRun_all_lt :
    ∀ s : List Nat, (parseHexRun s).1.all (fun b => b < 256) = true
  | [] => by simp [parseHexRun]
  | [c1] => by simp [parseHexRun]
  | c1 :: c2 :: rest => by
    rw [parseHexRun]
    cases h1 : hexDigitVal c1 with
    | none => simp
    | some v1 =>
      cases h2 : hexDigitVal c2 with
      | none => simp
      | some v2 =>
        have hv1 := hexDigitVal_lt c1 v1 h1
        have hv2 := hexDigitVal_lt c2 v2 h2
        have ih := parseHexRun_all_lt rest
        simp only [List.all_cons, Bool.and_eq_true, decide_eq_true_eq]
        exact ⟨by omega, ih⟩

theorem parseKeyList_wf :
    ∀ (fuel : Nat) (s : List Nat) (ks : List StringKey) (r : List Nat),
      parseKeyList fuel s = some (ks, r) →
      ks.all (fun k => k.str.all keyByte) = true := by
  intro fuel
  induction fuel with
  | zero =>
    intro s ks r h
    rw [parseKeyList.eq_def] at h
    split at h
    · simp only [Option.some.injEq, Prod.mk.injEq] at h
      obtain ⟨h1, h2⟩ := h
      subst h1
      rfl
    · rename_i a b fvar rest heq
      omega
    · simp at h
  | succ f ih =>
    intro s ks r h
    rw [parseKeyList.eq_def] at h
    split at h
    · simp only [Option.some.injEq, Prod.mk.injEq] at h
      obtain ⟨h1, h2⟩ := h
      subst h1
      rfl
    · rename_i a b fvar rest heq
      have hf : fvar = f := by omega
      subst hf
      simp only [] at h
      cases hin : parseKeyList fvar (rest.dropWhile keyByte) with
      | none => rw [hin] at h; simp at h
      | some p =>
        obtain ⟨ks2, r2⟩ := p
        rw [hin] at h
        simp only [Option.some.injEq, Prod.mk.injEq] at h
        obtain ⟨h1, h2⟩ := h
        subst h1
        simp only [List.all_cons, Bool.and_eq_true]
        exact ⟨all_takeWhile keyByte rest, ih _ _ _ hin⟩
    · simp at h

/-- One unfolding step of `parseMs` at positive fuel: recognize the header,
then dispatch on the fragment tag. -/
theorem parseMs_step (f : Nat) (ctx : MsCtx) (s : List Nat) :
    parseMs (f + 1) ctx s =
      (match msHeader s with
      | none => none
      | some (frag, rest) =>
        match frag with
        | .f0 => some (.false_, rest)
        | .f1 => some (.true_, rest)
        | .wa => (parseMs f ctx rest).map (fun p => (.wrap_a p.1, p.2))
        | .ws => (parseMs f ctx rest).map (fun p => (.wrap_s p.1, p.2))
        | .wc => (parseMs f ctx rest).map (fun p => (.wrap_c p.1, p.2))
        | .wd => (parseMs f ctx rest).map (fun p => (.wrap_d p.1, p.2))
        | .wv => (parseMs f ctx rest).map (fun p => (.wrap_v p.1, p.2))
        | .wj => (parseMs f ctx rest).map (fun p => (.wrap_j p.1, p.2))
        | .wn => (parseMs f ctx rest).map (fun p => (.wrap_n p.1, p.2))
        | .pkk =>
          (match rest.dropWhile keyByte with
          | 41 :: r2 => some (.pk_k ⟨rest.takeWhile keyByte⟩, r2)
          | _ => none)
        | .pkh =>
          (match rest.dropWhile keyByte with
          | 41 :: r2 => some (.pk_h ⟨rest.takeWhile keyByte⟩, r2)
          | _ => none)
        | .old =>
          (match parseNatBytes rest with
          | some (n, 41 :: r2) => some (.older n, r2)
          | _ => none)
        | .aft =>
          (match parseNatBytes rest with
          | some (n, 41 :: r2) => some (.after n, r2)
          | _ => none)
        | .sh256 =>
          (match parseHexRun rest with
          | (h, 41 :: r2) => if h.length = 32 then some (.sha256 h, r2) else none
          | _ => none)
        | .h256 =>
          (match parseHexRun rest with
          | (h, 41 :: r2) => if h.length = 32 then some (.hash256 h, r2) else none
          | _ => none)
        | .rmd160 =>
          (match parseHexRun rest with
          | (h, 41 :: r2) => if h.length = 20 then some (.ripemd160 h, r2) else none
          | _ => none)
        | .h160 =>
          (match parseHexRun rest with
          | (h, 41 :: r2) => if h.length = 20 then some (.hash160 h, r2) else none
          | _ => none)
        | .mlt =>
          if ctx = .p2wsh then
            match parseNatBytes rest with
            | some (k, r1) =>
              match parseKeyList f r1 with
              | some (ks, r2) => some (.multi k ks, r2)
              | none => none
            | none => none
          else none
        | .mlta =>
          if ctx = .tapscript then
            match parseNatBytes rest with
            | some (k, r1) =>
              match parseKeyList f r1 with
              | some (ks, r2) => some (.multi_a k ks, r2)
              | none => none
            | none => none
          else none
        | .av =>
          (match parseMs f ctx rest with
          | some (x, 44 :: r1) =>
            match parseMs f ctx r1 with
            | some (y, 41 :: r2) => some (.and_v x y, r2)
            | _ => none
          | _ => none)
        | .ab =>
          (match parseMs f ctx rest with
          | some (x, 44 :: r1) =>
            match parseMs f ctx r1 with
            | some (y, 41 :: r2) => some (.and_b x y, r2)
            | _ => none
          | _ => none)
        | .ao =>
          (match parseMs f ctx rest with
          | some (x, 44 :: r1) =>
            match parseMs f ctx r1 with
            | some (y, 44 :: r2) =>
              match parseMs f ctx r2 with
              | some (z, 41 :: r3) => some (.andor x y z, r3)
              | _ => none
            | _ => none
          | _ => none)
        | .ob =>
          (match parseMs f ctx rest with
          | some (x, 44 :: r1) =>
            match parseMs f ctx r1 with
            | some (y, 41 :: r2) => some (.or_b x y, r2)
            | _ => none
          | _ => none)
        | .oc =>
          (match parseMs f ctx rest with
          | some (x, 44 :: r1) =>
            match parseMs f ctx r1 with
            | some (y, 41 :: r2) => some (.or_c x y, r2)
            | _ => none
          | _ => none)
        | .od =>
          (match parseMs f ctx rest with
          | some (x, 44 :: r1) =>
            match parseMs f ctx r1 with
            | some (y, 41 :: r2) => some (.or_d x y, r2)
            | _ => none
          | _ => none)
        | .oi =>
          (match parseMs f ctx rest with
          | some (x, 44 :: r1) =>
            match parseMs f ctx r1 with
            | some (y, 41 :: r2) => some (.or_i x y, r2)
            | _ => none
          | _ => none)
        | .th =>
          (match parseNatBytes rest with
          | some (k, r1) =>
            match parseSubs f ctx r1 with
            | some (subs, r2) => some (.thresh k subs, r2)
            | none => none
          | none => none)) := rfl


/-- One unfolding step of `parseSubs` at positive fuel. -/
theorem parseSubs_step (f : Nat) (ctx : MsCtx) (s : List Nat) :
    parseSubs (f + 1) ctx s =
      (match s with
      | 41 :: rest => some (.nil, rest)
      | 44 :: rest =>
        match parseMs f ctx rest with
        | some (t, r1) =>
          match parseSubs f ctx r1 with
          | some (ts, r2) => some (.cons t ts, r2)
          | none => none
        | none => none
      | _ => none) := rfl

theorem parse_wf_mutual :
    ∀ fuel : Nat,
      (∀ ctx s t r, parseMs fuel ctx s = some (t, r) → msWF ctx t = true) ∧
      (∀ ctx s l r, parseSubs fuel ctx s = some (l, r) → msWFList ctx l = true) := by
  intro fuel
  induction fuel with
  | zero =>
    refine ⟨fun ctx s t r h => ?_, fun ctx s l r h => ?_⟩
    · rw [show parseMs 0 ctx s = none from rfl] at h
      exact absurd h (by simp)
    · rw [show parseSubs 0 ctx s = none from rfl] at h
      exact absurd h (by simp)
  | succ f ih =>
    obtain ⟨ihMs, ihSubs⟩ := ih
    refine ⟨fun ctx s t r h => ?_, fun ctx s l r h => ?_⟩
    · cases hh : msHeader s with
      | none =>
        rw [parseMs_step, hh] at h
        exact absurd h (by simp)
      | some p =>
        obtain ⟨frag, rest⟩ := p
        rw [parseMs_step, hh] at h
        dsimp only at h
        cases frag
        case f0 =>
          dsimp only at h
          simp only [Option.some.injEq, Prod.mk.injEq] at h
          obtain ⟨h1, _⟩ := h
          subst h1
          rfl
        case f1 =>
          dsimp only at h
          simp only [Option.some.injEq, Prod.mk.injEq] at h
          obtain ⟨h1, _⟩ := h
          subst h1
          rfl
        case wa =>
          dsimp only at h
          rw [Option.map_eq_some'] at h
          obtain ⟨⟨x, r1⟩, hin, hmk⟩ := h
          simp only [Prod.mk.injEq] at hmk
          obtain ⟨h1, _⟩ := hmk
          subst h1
          simp only [msWF]
          exact ihMs _ _ _ _ hin
        case ws =>
          dsimp only at h
          rw [Option.map_eq_some'] at h
          obtain ⟨⟨x, r1⟩, hin, hmk⟩ := h
          simp only [Prod.mk.injEq] at hmk
          obtain ⟨h1, _⟩ := hmk
          subst h1
          simp only [msWF]
          exact ihMs _ _ _ _ hin
        case wc =>
          dsimp only at h
          rw [Option.map_eq_some'] at h
          obtain ⟨⟨x, r1⟩, hin, hmk⟩ := h
          simp only [Prod.mk.injEq] at hmk
          obtain ⟨h1, _⟩ := hmk
          subst h1
          simp only [msWF]
          exact ihMs _ _ _ _ hin
        case wd =>
          dsimp only at h
          rw [Option.map_eq_some'] at h
          obtain ⟨⟨x, r1⟩, hin, hmk⟩ := h
          simp only [Prod.mk.injEq] at hmk
          obtain ⟨h1, _⟩ := hmk
          subst h1
          simp only [msWF]
          exact ihMs _ _ _ _ hin
        case wv =>
          dsimp only at h
          rw [Option.map_eq_some'] at h
          obtain ⟨⟨x, r1⟩, hin, hmk⟩ := h
          simp only [Prod.mk.injEq] at hmk
          obtain ⟨h1, _⟩ := hmk
          subst h1
          simp only [msWF]
          exact ihMs _ _ _ _ hin
        case wj =>
          dsimp only at h
          rw [Option.map_eq_some'] at h
          obtain ⟨⟨x, r1⟩, hin, hmk⟩ := h
          simp only [Prod.mk.injEq] at hmk
          obtain ⟨h1, _⟩ := hmk
          subst h1
          simp only [msWF]
          exact ihMs _ _ _ _ hin
        case wn =>
          dsimp only at h
          rw [Option.map_eq_some'] at h
          obtain ⟨⟨x, r1⟩, hin, hmk⟩ := h
          simp only [Prod.mk.injEq] at hmk
          obtain ⟨h1, _⟩ := hmk
          subst h1
          simp only [msWF]
          exact ihMs _ _ _ _ hin
        case pkk =>
          dsimp only at h
          split at h
          · simp only [Option.some.injEq, Prod.mk.injEq] at h
            obtain ⟨h1, _⟩ := h
            subst h1
            simp only [msWF]
            exact all_takeWhile keyByte rest
          · exact absurd h (by simp)
        case pkh =>
          dsimp only at h
          split at h
          · simp only [Option.some.injEq, Prod.mk.injEq] at h
            obtain ⟨h1, _⟩ := h
            subst h1
            simp only [msWF]
            exact all_takeWhile keyByte rest
          · exact absurd h (by simp)
        case old =>
          dsimp only at h
          split at h
          · simp only [Option.some.injEq, Prod.mk.injEq] at h
            obtain ⟨h1, _⟩ := h
            subst h1
            rfl
          · exact absurd h (by simp)
        case aft =>
          dsimp only at h
          split at h
          · simp only [Option.some.injEq, Prod.mk.injEq] at h
            obtain ⟨h1, _⟩ := h
            subst h1
            rfl
          · exact absurd h (by simp)
        case sh256 =>
          dsimp only at h
          split at h
          · rename_i hbytes r2 heq
            split at h
            · rename_i hlen
              simp only [Option.some.injEq, Prod.mk.injEq] at h
              obtain ⟨h1, _⟩ := h
              subst h1
              have hall := parseHexRun_all_lt rest
              rw [heq] at hall
              simp only [msWF, Bool.and_eq_true, decide_eq_true_eq]
              exact ⟨hlen, hall⟩
            · exact absurd h (by simp)
          · exact absurd h (by simp)
        case h256 =>
          dsimp only at h
          split at h
          · rename_i hbytes r2 heq
            split at h
            · rename_i hlen
              simp only [Option.some.injEq, Prod.mk.injEq] at h
              obtain ⟨h1, _⟩ := h
              subst h1
              have hall := parseHexRun_all_lt rest
              rw [heq] at hall
              simp only [msWF, Bool.and_eq_true, decide_eq_true_eq]
              exact ⟨hlen, hall⟩
            · exact absurd h (by simp)
          · exact absurd h (by simp)
        case rmd160 =>
          dsimp only at h
          split at h
          · rename_i hbytes r2 heq
            split at h
            · rename_i hlen
              simp only [Option.some.injEq, Prod.mk.injEq] at h
              obtain ⟨h1, _⟩ := h
              subst h1
              have hall := parseHexRun_all_lt rest
              rw [heq] at hall
              simp only [msWF, Bool.and_eq_true, decide_eq_true_eq]
              exact ⟨hlen, hall⟩
            · exact absurd h (by simp)
          · exact absurd h (by simp)
        case h160 =>
          dsimp only at h
          split at h
          · rename_i hbytes r2 heq
            split at h
            · rename_i hlen
              simp only [Option.some.injEq, Prod.mk.injEq] at h
              obtain ⟨h1, _⟩ := h
              subst h1
              have hall := parseHexRun_all_lt rest
              rw [heq] at hall
              simp only [msWF, Bool.and_eq_true, decide_eq_true_eq]
              exact ⟨hlen, hall⟩
            · exact absurd h (by simp)
          · exact absurd h (by simp)
        case mlt =>
          dsimp only at h
          split at h
          · rename_i hc
            split at h
            · rename_i k r1 heq1
              split at h
              · rename_i ks r2 heq2
                simp only [Option.some.injEq, Prod.mk.injEq] at h
                obtain ⟨h1, _⟩ := h
                subst h1
                simp only [msWF, Bool.and_eq_true]
                exact ⟨by simp [hc], parseKeyList_wf _ _ _ _ heq2⟩
              · exact absurd h (by simp)
            · exact absurd h (by simp)
          · exact absurd h (by simp)
        case mlta =>
          dsimp only at h
          split at h
          · rename_i hc
            split at h
            · rename_i k r1 heq1
              split at h
              · rename_i ks r2 heq2
                simp only [Option.some.injEq, Prod.mk.injEq] at h
                obtain ⟨h1, _⟩ := h
                subst h1
                simp only [msWF, Bool.and_eq_true]
                exact ⟨by simp [hc], parseKeyList_wf _ _ _ _ heq2⟩
              · exact absurd h (by simp)
            · exact absurd h (by simp)
          · exact absurd h (by simp)
        case av =>
          dsimp only at h
          split at h
          · rename_i x r1 heq1
            split at h
            · rename_i y r2 heq2
              simp only [Option.some.injEq, Prod.mk.injEq] at h
              obtain ⟨h1, _⟩ := h
              subst h1
              simp only [msWF, Bool.and_eq_true]
              exact ⟨ihMs _ _ _ _ heq1, ihMs _ _ _ _ heq2⟩
            · exact absurd h (by simp)
          · exact absurd h (by simp)
        case ab =>
          dsimp only at h
          split at h
          · rename_i x r1 heq1
            split at h
            · rename_i y r2 heq2
              simp only [Option.some.injEq, Prod.mk.injEq] at h
              obtain ⟨h1, _⟩ := h
              subst h1
              simp only [msWF, Bool.and_eq_true]
              exact ⟨ihMs _ _ _ _ heq1, ihMs _ _ _ _ heq2⟩
            · exact absurd h (by simp)
          · exact absurd h (by simp)
        case ao =>
          dsimp only at h
          split at h
          · rename_i x r1 heq1
            split at h
            · rename_i y r2 heq2
              split at h
              · rename_i z r3 heq3
                simp only [Option.some.injEq, Prod.mk.injEq] at h
                obtain ⟨h1, _⟩ := h
                subst h1
                simp only [msWF, Bool.and_eq_true]
                exact ⟨⟨ihMs _ _ _ _ heq1, ihMs _ _ _ _ heq2⟩, ihMs _ _ _ _ heq3⟩
              · exact absurd h (by simp)
            · exact absurd h (by simp)
          · exact absurd h (by simp)
        case ob =>
          dsimp only at h
          split at h
          · rename_i x r1 heq1
            split at h
            · rename_i y r2 heq2
              simp only [Option.some.injEq, Prod.mk.injEq] at h
              obtain ⟨h1, _⟩ := h
              subst h1
              simp only [msWF, Bool.and_eq_true]
              exact ⟨ihMs _ _ _ _ heq1, ihMs _ _ _ _ heq2⟩
            · exact absurd h (by simp)
          · exact absurd h (by simp)
        case oc =>
          dsimp only at h
          split at h
          · rename_i x r1 heq1
            split at h
            · rename_i y r2 heq2
              simp only [Option.some.injEq, Prod.mk.injEq] at h
              obtain ⟨h1, _⟩ := h
              subst h1
              simp only [msWF, Bool.and_eq_true]
              exact ⟨ihMs _ _ _ _ heq1, ihMs _ _ _ _ heq2⟩
            · exact absurd h (by simp)
          · exact absurd h (by simp)
        case od =>
          dsimp only at h
          split at h
          · rename_i x r1 heq1
            split at h
            · rename_i y r2 heq2
              simp only [Option.some.injEq, Prod.mk.injEq] at h
              obtain ⟨h1, _⟩ := h
              subst h1
              simp only [msWF, Bool.and_eq_true]
              exact ⟨ihMs _ _ _ _ heq1, ihMs _ _ _ _ heq2⟩
            · exact absurd h (by simp)
          · exact absurd h (by simp)
        case oi =>
          dsimp only at h
          split at h
          · rename_i x r1 heq1
            split at h
            · rename_i y r2 heq2
              simp only [Option.some.injEq, Prod.mk.injEq] at h
              obtain ⟨h1, _⟩ := h
              subst h1
              simp only [msWF, Bool.and_eq_true]
              exact ⟨ihMs _ _ _ _ heq1, ihMs _ _ _ _ heq2⟩
            · exact absurd h (by simp)
          · exact absurd h (by simp)
        case th =>
          dsimp only at h
          split at h
          · rename_i k r1 heq1
            split at h
            · rename_i subs r2 heq2
              simp only [Option.some.injEq, Prod.mk.injEq] at h
              obtain ⟨h1, _⟩ := h
              subst h1
              simp only [msWF]
              exact ihSubs _ _ _ _ heq2
            · exact absurd h (by simp)
          · exact absurd h (by simp)
    · rw [parseSubs_step] at h
      split at h
      · simp only [Option.some.injEq, Prod.mk.injEq] at h
        obtain ⟨h1, _⟩ := h
        subst h1
        rfl
      · split at h
        · rename_i x r1 heq1
          split at h
          · rename_i ts r2 heq2
            simp only [Option.some.injEq, Prod.mk.injEq] at h
            obtain ⟨h1, _⟩ := h
            subst h1
            simp only [msWFList, Bool.and_eq_true]
            exact ⟨ihMs _ _ _ _ heq1, ihSubs _ _ _ _ heq2⟩
          · exact absurd h (by simp)
        · exact absurd h (by simp)
      · exact absurd h (by simp)

theorem printKeys_length_ge (ks : List StringKey) :
    ks.length ≤ (printKeys ks).length := by
  induction ks with
  | nil => simp [printKeys]
  | cons k ks ih =>
    simp only [printKeys, List.flatMap_cons, List.length_append, List.length_cons,
      List.length_nil] at *
    omega

mutual

/-- A tree's size never exceeds the length of its printed form. -/
theorem sizeT_le_print : ∀ t : MsTree, sizeT t ≤ (msPrint t).length
  | .true_ => by simp [sizeT, msPrint]
  | .false_ => by simp [sizeT, msPrint]
  | .pk_k k => by simp [sizeT, msPrint, strBytes_pk_k]
  | .pk_h k => by simp [sizeT, msPrint, strBytes_pk_h]
  | .older n => by simp [sizeT, msPrint, strBytes_older]
  | .after n => by simp [sizeT, msPrint, strBytes_after]
  | .sha256 h => by simp [sizeT, msPrint, strBytes_sha256]
  | .hash256 h => by simp [sizeT, msPrint, strBytes_hash256]
  | .ripemd160 h => by simp [sizeT, msPrint, strBytes_ripemd160]
  | .hash160 h => by simp [sizeT, msPrint, strBytes_hash160]
  | .multi k ks => by
    have hk := printKeys_length_ge ks
    simp only [sizeT, msPrint, strBytes_multi, List.length_append, List.length_cons,
      List.length_nil]
    omega
  | .multi_a k ks => by
    have hk := printKeys_length_ge ks
    simp only [sizeT, msPrint, strBytes_multi_a, List.length_append, List.length_cons,
      List.length_nil]
    omega
  | .wrap_a x => by
    have hx := sizeT_le_print x
    simp only [sizeT, msPrint, List.length_cons]
    omega
  | .wrap_s x => by
    have hx := sizeT_le_print x
    simp only [sizeT, msPrint, List.length_cons]
    omega
  | .wrap_c x => by
    have hx := sizeT_le_print x
    simp only [sizeT, msPrint, List.length_cons]
    omega
  | .wrap_d x => by
    have hx := sizeT_le_print x
    simp only [sizeT, msPrint, List.length_cons]
    omega
  | .wrap_v x => by
    have hx := sizeT_le_print x
    simp only [sizeT, msPrint, List.length_cons]
    omega
  | .wrap_j x => by
    have hx := sizeT_le_print x
    simp only [sizeT, msPrint, List.length_cons]
    omega
  | .wrap_n x => by
    have hx := sizeT_le_print x
    simp only [sizeT, msPrint, List.length_cons]
    omega
  | .and_v x y => by
    have hx := sizeT_le_print x
    have hy := sizeT_le_print y
    simp only [sizeT, msPrint, strBytes_and_v, List.length_append, List.length_cons,
      List.length_nil]
    omega
  | .and_b x y => by
    have hx := sizeT_le_print x
    have hy := sizeT_le_print y
    simp only [sizeT, msPrint, strBytes_and_b, List.length_append, List.length_cons,
      List.length_nil]
    omega
  | .andor x y z => by
    have hx := sizeT_le_print x
    have hy := sizeT_le_print y
    have hz := sizeT_le_print z
    simp only [sizeT, msPrint, strBytes_andor, List.length_append, List.length_cons,
      List.length_nil]
    omega
  | .or_b x y => by
    have hx := sizeT_le_print x
    have hy := sizeT_le_print y
    simp only [sizeT, msPrint, strBytes_or_b, List.length_append, List.length_cons,
      List.length_nil]
    omega
  | .or_c x y => by
    have hx := sizeT_le_print x
    have hy := sizeT_le_print y
    simp only [sizeT, msPrint, strBytes_or_c, List.length_append, List.length_cons,
      List.length_nil]
    omega
  | .or_d x y => by
    have hx := sizeT_le_print x
    have hy := sizeT_le_print y
    simp only [sizeT, msPrint, strBytes_or_d, List.length_append, List.length_cons,
      List.length_nil]
    omega
  | .or_i x y => by
    have hx := sizeT_le_print x
    have hy := sizeT_le_print y
    simp only [sizeT, msPrint, strBytes_or_i, List.length_append, List.length_cons,
      List.length_nil]
    omega
  | .thresh k subs => by
    have hsubs := sizeL_le_printList subs
    simp only [sizeT, msPrint, strBytes_thresh, List.length_append, List.length_cons,
      List.length_nil]
    omega

/-- A child list's size never exceeds its printed length plus one. -/
theorem sizeL_le_printList : ∀ l : MsTreeList, sizeL l ≤ (msPrintList l).length + 1
  | .nil => by simp [sizeL, msPrintList]
  | .cons x xs => by
    have hx := sizeT_le_print x
    have hxs := sizeL_le_printList xs
    simp only [sizeL, msPrintList, List.length_append, List.length_cons]
    omega

end

/-- Modelled from the spec: the top-level text parse used by
`miniscript::FromString` — run the recursive parser with enough fuel and
require the whole input to be consumed. -/
def parseText (ctx : MsCtx) (s : List Nat) : Option MsTree :=
  match parseMs (s.length + 1) ctx s with
  | some (t, []) => some t
  | _ => none

/-- A successful top-level parse yields a well-formed tree. -/
theorem parseText_wf (ctx : MsCtx) (s : List Nat) (t : MsTree)
    (h : parseText ctx s = some t) : msWF ctx t = true := by
  unfold parseText at h
  split at h
  · rename_i t2 heq
    simp only [Option.some.injEq] at h
    subst h
    exact (parse_wf_mutual _).1 _ _ _ _ heq
  · exact absurd h (by simp)

/-- Text round trip: re-parsing the canonical printing of any parsed tree
recovers the same tree. -/
theorem parseText_print (ctx : MsCtx) (t : MsTree) (hwf : msWF ctx t = true) :
    parseText ctx (msPrint t) = some t := by
  have hp : parseMs ((msPrint t).length + 1) ctx (msPrint t ++ []) = some (t, []) :=
    parseMs_print t ctx hwf _ [] (by have := sizeT_le_print t; omega)
  rw [List.append_nil] at hp
  unfold parseText
  rw [hp]

/-!
## Script serialization (§4.1, §6)

`Node::ToScript` / `miniscript::FromScript` live in Bitcoin Core's
`script/miniscript.h`, outside this repository's sources.  `toScript` below
is modelled from the spec: serialization is exact and deterministic, one
fragment kind mapping to one fixed opcode sequence (§4.1), with key bytes
produced by the source's `StringKeyContext.ToPKBytes` / `ToPKHBytes`.
-/

/-- A direct data push: length byte followed by the data. -/
def pushData (bs : List Nat) : List Nat :=
  bs.length :: bs

/-- Minimal little-endian script-number encoding (empty for zero, with a
trailing zero byte when the top bit would be set). -/
def scriptNumEnc (n : Nat) : List Nat :=
  if n = 0 then []
  else
    let d := Nat.digits 256 n
    if 128 ≤ (d.getLast?.getD 0) then d ++ [0] else d

/-- Push of a script number. -/
def pushNum (n : Nat) : List Nat :=
  (scriptNumEnc n).length :: scriptNumEnc n

mutual

/-- Modelled from the spec: `Node::ToScript` — the fixed opcode sequence of
each fragment kind, with key bytes from the source's key context. -/
def toScript : MsCtx → MsTree → List Nat
  | _, .true_ => [81]
  | _, .false_ => [0]
  | ctx, .pk_k k => pushData (StringKeyContext.ToPKBytes ctx k)
  | ctx, .pk_h k =>
    [118, 169] ++ pushData (StringKeyContext.ToPKHBytes ctx k) ++ [136]
  | _, .older n => pushNum n ++ [178]
  | _, .after n => pushNum n ++ [177]
  | _, .sha256 h => [130] ++ pushNum 32 ++ [136, 168] ++ pushData h ++ [135]
  | _, .hash256 h => [130] ++ pushNum 32 ++ [136, 170] ++ pushData h ++ [135]
  | _, .ripemd160 h => [130] ++ pushNum 20 ++ [136, 166] ++ pushData h ++ [135]
  | _, .hash160 h => [130] ++ pushNum 20 ++ [136, 169] ++ pushData h ++ [135]
  | ctx, .multi k ks =>
    pushNum k ++ ks.flatMap (fun kk => pushData (StringKeyContext.ToPKBytes ctx kk)) ++
      pushNum ks.length ++ [174]
  | ctx, .multi_a k ks =>
    ks.flatMap (fun kk => pushData (StringKeyContext.ToPKBytes ctx kk) ++ [186]) ++
      pushNum k ++ [156]
  | ctx, .wrap_a x => [107] ++ toScript ctx x ++ [108]
  | ctx, .wrap_s x => [124] ++ toScript ctx x
  | ctx, .wrap_c x => toScript ctx x ++ [172]
  | ctx, .wrap_d x => [118, 99] ++ toScript ctx x ++ [104]
  | ctx, .wrap_v x => toScript ctx x ++ [105]
  | ctx, .wrap_j x => [130, 146, 99] ++ toScript ctx x ++ [104]
  | ctx, .wrap_n x => toScript ctx x ++ [146]
  | ctx, .and_v x y => toScript ctx x ++ toScript ctx y
  | ctx, .and_b x y => toScript ctx x ++ toScript ctx y ++ [154]
  | ctx, .andor x y z =>
    toScript ctx x ++ [100] ++ toScript ctx z ++ [103] ++ toScript ctx y ++ [104]
  | ctx, .or_b x y => toScript ctx x ++ toScript ctx y ++ [155]
  | ctx, .or_c x y => toScript ctx x ++ [100] ++ toScript ctx y ++ [104]
  | ctx, .or_d x y => toScript ctx x ++ [115, 100] ++ toScript ctx y ++ [104]
  | ctx, .or_i x y => [99] ++ toScript ctx x ++ [103] ++ toScript ctx y ++ [104]
  | ctx, .thresh k subs => toScriptList ctx subs ++ pushNum k ++ [135]

/-- Serialization of a `thresh` child list (each child followed by the
accumulation opcode). -/
def toScriptList : MsCtx → MsTreeList → List Nat
  | _, .nil => []
  | ctx, .cons x xs => toScript ctx x ++ 147 :: toScriptList ctx xs

end

mutual

/-- Replace every key in the tree by the fixed placeholders that the
source's `StringKeyContext.FromPKBytes` / `FromPKHBytes` produce when
decompiling a script. -/
def rekey : MsTree → MsTree
  | .true_ => .true_
  | .false_ => .false_
  | .pk_k _ => .pk_k ⟨strBytes ("decoded_key")⟩
  | .pk_h _ => .pk_h ⟨strBytes ("decoded_pkh_key")⟩
  | .older n => .older n
  | .after n => .after n
  | .sha256 h => .sha256 h
  | .hash256 h => .hash256 h
  | .ripemd160 h => .ripemd160 h
  | .hash160 h => .hash160 h
  | .multi k ks => .multi k (ks.map (fun _ => ⟨strBytes ("decoded_key")⟩))
  | .multi_a k ks => .multi_a k (ks.map (fun _ => ⟨strBytes ("decoded_key")⟩))
  | .wrap_a x => .wrap_a (rekey x)
  | .wrap_s x => .wrap_s (rekey x)
  | .wrap_c x => .wrap_c (rekey x)
  | .wrap_d x => .wrap_d (rekey x)
  | .wrap_v x => .wrap_v (rekey x)
  | .wrap_j x => .wrap_j (rekey x)
  | .wrap_n x => .wrap_n (rekey x)
  | .and_v x y => .and_v (rekey x) (rekey y)
  | .and_b x y => .and_b (rekey x) (rekey y)
  | .andor x y z => .andor (rekey x) (rekey y) (rekey z)
  | .or_b x y => .or_b (rekey x) (rekey y)
  | .or_c x y => .or_c (rekey x) (rekey y)
  | .or_d x y => .or_d (rekey x) (rekey y)
  | .or_i x y => .or_i (rekey x) (rekey y)
  | .thresh k subs => .thresh k (rekeyList subs)

def rekeyList : MsTreeList → MsTreeList
  | .nil => .nil
  | .cons x xs => .cons (rekey x) (rekeyList xs)

end

theorem ToPKBytes_const (ctx : MsCtx) (a b : StringKey) :
    StringKeyContext.ToPKBytes ctx a = StringKeyContext.ToPKBytes ctx b := by
  cases ctx <;> rfl

theorem flatMap_push_rekey (ctx : MsCtx) (ks : List StringKey) :
    (ks.map (fun _ => (⟨strBytes ("decoded_key")⟩ : StringKey))).flatMap
        (fun kk => pushData (StringKeyContext.ToPKBytes ctx kk)) =
      ks.flatMap (fun kk => pushData (StringKeyContext.ToPKBytes ctx kk)) := by
  induction ks with
  | nil => rfl
  | cons k ks ih =>
    simp only [List.map_cons, List.flatMap_cons]
    rw [ih, ToPKBytes_const ctx ⟨strBytes ("decoded_key")⟩ k]

theorem flatMap_push_sig_rekey (ctx : MsCtx) (ks : List StringKey) :
    (ks.map (fun _ => (⟨strBytes ("decoded_key")⟩ : StringKey))).flatMap
        (fun kk => pushData (StringKeyContext.ToPKBytes ctx kk) ++ [186]) =
      ks.flatMap (fun kk => pushData (StringKeyContext.ToPKBytes ctx kk) ++ [186]) := by
  induction ks with
  | nil => rfl
  | cons k ks ih =>
    simp only [List.map_cons, List.flatMap_cons]
    rw [ih, ToPKBytes_const ctx ⟨strBytes ("decoded_key")⟩ k]

mutual

/-- Serialization does not depend on key contents: rekeying to the decoder
placeholders leaves the script bytes unchanged, because the source's
`StringKeyContext.ToPKBytes` / `ToPKHBytes` ignore the key. -/
theorem toScript_rekey : ∀ (ctx : MsCtx) (t : MsTree),
    toScript ctx (rekey t) = toScript ctx t
  | ctx, .true_ => rfl
  | ctx, .false_ => rfl
  | ctx, .pk_k k => rfl
  | ctx, .pk_h k => rfl
  | ctx, .older n => rfl
  | ctx, .after n => rfl
  | ctx, .sha256 h => rfl
  | ctx, .hash256 h => rfl
  | ctx, .ripemd160 h => rfl
  | ctx, .hash160 h => rfl
  | ctx, .multi k ks => by
    simp only [rekey, toScript, flatMap_push_rekey, List.length_map]
  | ctx, .multi_a k ks => by
    simp only [rekey, toScript, flatMap_push_sig_rekey]
  | ctx, .wrap_a x => by simp only [rekey, toScript, toScript_rekey ctx x]
  | ctx, .wrap_s x => by simp only [rekey, toScript, toScript_rekey ctx x]
  | ctx, .wrap_c x => by simp only [rekey, toScript, toScript_rekey ctx x]
  | ctx, .wrap_d x => by simp only [rekey, toScript, toScript_rekey ctx x]
  | ctx, .wrap_v x => by simp only [rekey, toScript, toScript_rekey ctx x]
  | ctx, .wrap_j x => by simp only [rekey, toScript, toScript_rekey ctx x]
  | ctx, .wrap_n x => by simp only [rekey, toScript, toScript_rekey ctx x]
  | ctx, .and_v x y => by
    simp only [rekey, toScript, toScript_rekey ctx x, toScript_rekey ctx y]
  | ctx, .and_b x y => by
    simp only [rekey, toScript, toScript_rekey ctx x, toScript_rekey ctx y]
  | ctx, .andor x y z => by
    simp only [rekey, toScript, toScript_rekey ctx x, toScript_rekey ctx y,
      toScript_rekey ctx z]
  | ctx, .or_b x y => by
    simp only [rekey, toScript, toScript_rekey ctx x, toScript_rekey ctx y]
  | ctx, .or_c x y => by
    simp only [rekey, toScript, toScript_rekey ctx x, toScript_rekey ctx y]
  | ctx, .or_d x y => by
    simp only [rekey, toScript, toScript_rekey ctx x, toScript_rekey ctx y]
  | ctx, .or_i x y => by
    simp only [rekey, toScript, toScript_rekey ctx x, toScript_rekey ctx y]
  | ctx, .thresh k subs => by
    simp only [rekey, toScript, toScriptList_rekey ctx subs]

theorem toScriptList_rekey : ∀ (ctx : MsCtx) (l : MsTreeList),
    toScriptList ctx (rekeyList l) = toScriptList ctx l
  | ctx, .nil => rfl
  | ctx, .cons x xs => by
    simp only [rekeyList, toScriptList, toScript_rekey ctx x,
      toScriptList_rekey ctx xs]

end

mutual

/-- Rekeying is idempotent. -/
theorem rekey_idem : ∀ t : MsTree, rekey (rekey t) = rekey t
  | .true_ => rfl
  | .false_ => rfl
  | .pk_k k => rfl
  | .pk_h k => rfl
  | .older n => rfl
  | .after n => rfl
  | .sha256 h => rfl
  | .hash256 h => rfl
  | .ripemd160 h => rfl
  | .hash160 h => rfl
  | .multi k ks => by simp [rekey]
  | .multi_a k ks => by simp [rekey]
  | .wrap_a x => by simp only [rekey, rekey_idem x]
  | .wrap_s x => by simp only [rekey, rekey_idem x]
  | .wrap_c x => by simp only [rekey, rekey_idem x]
  | .wrap_d x => by simp only [rekey, rekey_idem x]
  | .wrap_v x => by simp only [rekey, rekey_idem x]
  | .wrap_j x => by simp only [rekey, rekey_idem x]
  | .wrap_n x => by simp only [rekey, rekey_idem x]
  | .and_v x y => by simp only [rekey, rekey_idem x, rekey_idem y]
  | .and_b x y => by simp only [rekey, rekey_idem x, rekey_idem y]
  | .andor x y z => by simp only [rekey, rekey_idem x, rekey_idem y, rekey_idem z]
  | .or_b x y => by simp only [rekey, rekey_idem x, rekey_idem y]
  | .or_c x y => by simp only [rekey, rekey_idem x, rekey_idem y]
  | .or_d x y => by simp only [rekey, rekey_idem x, rekey_idem y]
  | .or_i x y => by simp only [rekey, rekey_idem x, rekey_idem y]
  | .thresh k subs => by simp only [rekey, rekeyList_idem subs]

theorem rekeyList_idem : ∀ l : MsTreeList, rekeyList (rekeyList l) = rekeyList l
  | .nil => rfl
  | .cons x xs => by simp only [rekeyList, rekey_idem x, rekeyList_idem xs]

end

/-- Modelled from the spec: the graph of `miniscript::FromScript` — the
decompiler must recover a tree whose re-serialization is byte-identical to
the input (§4.1), and every key it produces comes from the source's
`StringKeyContext.FromPKBytes` / `FromPKHBytes`, which always return the
fixed placeholder keys (so the recovered tree is a fixed point of
`rekey`). -/
def FromScriptRec (ctx : MsCtx) (bytes : List Nat) (t : MsTree) : Prop :=
  toScript ctx t = bytes ∧ rekey t = t

/-!
## Node attributes and the FFI wrapper layer

`miniscript::Node` lives in Bitcoin Core's `script/miniscript.h`.  Per the
spec (§3), every node caches its derived Type and resource metadata,
computed once at construction; the node is modelled as a record of those
cached attributes together with the tree.  The wrapper functions below are
translated from miniscript_wrapper.cpp.
-/

/-- The multi-bit type property set of §4.2 (the bits the wrapper's
`miniscript_get_type` queries, miniscript_wrapper.cpp lines 442-456). -/
structure MsType where
  B : Bool
  V : Bool
  K : Bool
  W : Bool
  z : Bool
  o : Bool
  n : Bool
  d : Bool
  u : Bool
  e : Bool
  f : Bool
  s : Bool
  m : Bool
  x : Bool
  k : Bool
deriving DecidableEq, Repr

/-- A `miniscript::Node<StringKey>` as the wrapper observes it: the tree and
its cached derived attributes (§3: computed once at construction, never
recomputed). -/
structure MsNode where
  tree : MsTree
  typ : MsType
  valid : Bool
  validTopLevel : Bool
  dupKeyOk : Bool
  opsLimitOk : Bool
  stackSizeOk : Bool
  validSats : Bool
  ops : Option Nat
  stackSize : Option Nat
  execStackSize : Option Nat
  witnessSize : Option Nat
  scriptSize : Nat

namespace MsNode

/-- `Node::IsValid` (cached validity attribute). -/
def IsValid (nd : MsNode) : Bool := nd.valid

/-- `Node::IsValidTopLevel`. -/
def IsValidTopLevel (nd : MsNode) : Bool := nd.validTopLevel

/-- `Node::GetType` (§3: the cached Type). -/
def GetType (nd : MsNode) : MsType := nd.typ

/-- Modelled from the spec: `is_non_malleable()` = the `m` bit (§4.2). -/
def IsNonMalleable (nd : MsNode) : Bool := nd.typ.m

/-- Modelled from the spec: `needs_signature()` = the `s` bit (§4.2). -/
def NeedsSignature (nd : MsNode) : Bool := nd.typ.s

/-- `Node::CheckDuplicateKey` (no duplicate keys across the whole tree). -/
def CheckDuplicateKey (nd : MsNode) : Bool := nd.dupKeyOk

/-- `Node::CheckOpsLimit`. -/
def CheckOpsLimit (nd : MsNode) : Bool := nd.opsLimitOk

/-- `Node::CheckStackSize`. -/
def CheckStackSize (nd : MsNode) : Bool := nd.stackSizeOk

/-- `Node::ValidSatisfactions`. -/
def ValidSatisfactions (nd : MsNode) : Bool := nd.validSats

/-- Modelled from the spec: `is_sane()` — valid, non-malleable (`m`), no
duplicate keys across the whole tree, and free of timelock-unit mixing
(the `k` bit) (§4.2). -/
def IsSane (nd : MsNode) : Bool :=
  nd.valid && nd.typ.m && nd.dupKeyOk && nd.typ.k

end MsNode

/-- The wrapper's `MiniscriptNode` (miniscript_wrapper.cpp lines 303-309):
the held `NodeRef` (possibly null) and the context. -/
structure MiniscriptNode where
  node : Option MsNode
  ctx : MsCtx

/-- `MiniscriptResult` of miniscript_wrapper.h. -/
structure MiniscriptResult where
  success : Bool
  error_message : Option String

/-- The C context enum (`MINISCRIPT_CONTEXT_WSH` = 0,
`MINISCRIPT_CONTEXT_TAPSCRIPT` = 1); other values are invalid
(miniscript_wrapper.cpp lines 339-350). -/
def ctxOfC : Nat → Option MsCtx
  | 0 => some .p2wsh
  | 1 => some .tapscript
  | _ => none

/-- The outcome of the external `miniscript::FromString` /
`miniscript::FromScript` call inside the wrapper's `try` block: a node, a
null `NodeRef`, or a thrown exception. -/
inductive CoreParse where
  | ok (nd : MsNode)
  | failed
  | threw (msg : String)

/-- `miniscript_from_string` (miniscript_wrapper.cpp lines 327-378).
`input = none` models a null input pointer, `outProvided = false` a null
`out_node`; `outcome` is the external parser's result.  The returned pair
is the C result struct together with the final value of `*out_node`. -/
def miniscript_from_string (input : Option (List Nat)) (ctx : Nat)
    (outProvided : Bool) (outcome : CoreParse) :
    MiniscriptResult × Option MiniscriptNode :=
  match input, outProvided with
  | none, _ => (⟨false, some ("Invalid arguments: null pointer")⟩, none)
  | _, false => (⟨false, some ("Invalid arguments: null pointer")⟩, none)
  | some _, true =>
    match ctxOfC ctx with
    | none => (⟨false, some ("Invalid context")⟩, none)
    | some ms_ctx =>
      match outcome with
      | .threw msg => (⟨false, some msg⟩, none)
      | .failed => (⟨false, some ("Failed to parse miniscript")⟩, none)
      | .ok nd =>
        if nd.IsValid then (⟨true, none⟩, some ⟨some nd, ms_ctx⟩)
        else (⟨false, some ("Parsed miniscript is not valid")⟩, none)

/-- `miniscript_from_script` (miniscript_wrapper.cpp lines 572-623): same
structure as `miniscript_from_string` over script bytes. -/
def miniscript_from_script (script : Option (List Nat)) (ctx : Nat)
    (outProvided : Bool) (outcome : CoreParse) :
    MiniscriptResult × Option MiniscriptNode :=
  match script, outProvided with
  | none, _ => (⟨false, some ("Invalid arguments: null pointer")⟩, none)
  | _, false => (⟨false, some ("Invalid arguments: null pointer")⟩, none)
  | some _, true =>
    match ctxOfC ctx with
    | none => (⟨false, some ("Invalid context")⟩, none)
    | some ms_ctx =>
      match outcome with
      | .threw msg => (⟨false, some msg⟩, none)
      | .failed => (⟨false, some ("Failed to parse script as miniscript")⟩, none)
      | .ok nd =>
        if nd.IsValid then (⟨true, none⟩, some ⟨some nd, ms_ctx⟩)
        else (⟨false, some ("Parsed miniscript is not valid")⟩, none)

/-- `miniscript_to_string` (miniscript_wrapper.cpp lines 380-395): null
node or null inner `NodeRef` yields a null string, otherwise the node's
canonical printing. -/
def miniscript_to_string (p : Option MiniscriptNode) : Option (List Nat) :=
  match p with
  | none => none
  | some q =>
    match q.node with
    | none => none
    | some nd => some (msPrint nd.tree)

/-- `miniscript_to_script` (miniscript_wrapper.cpp lines 397-416): the
flags model the nullness of the two output pointers, `allocOk` the malloc
result.  Returns (return value, `*out_script` written, `*out_len`
written). -/
def miniscript_to_script (p : Option MiniscriptNode)
    (out_script out_len : Bool) (allocOk : Bool) :
    Bool × Option (List Nat) × Option Nat :=
  match p with
  | none => (false, none, none)
  | some q =>
    match q.node with
    | none => (false, none, none)
    | some nd =>
      if out_script && out_len then
        if allocOk then
          (true, some (toScript q.ctx nd.tree), some (toScript q.ctx nd.tree).length)
        else (false, none, some (toScript q.ctx nd.tree).length)
      else (false, none, none)

/-- `miniscript_is_valid` (miniscript_wrapper.cpp lines 418-423). -/
def miniscript_is_valid (p : Option MiniscriptNode) : Bool :=
  match p with
  | none => false
  | some q =>
    match q.node with
    | none => false
    | some nd => nd.IsValid

/-- `miniscript_is_sane` (miniscript_wrapper.cpp lines 425-430). -/
def miniscript_is_sane (p : Option MiniscriptNode) : Bool :=
  match p with
  | none => false
  | some q =>
    match q.node with
    | none => false
    | some nd => nd.IsSane

/-- `miniscript_is_non_malleable` (miniscript_wrapper.cpp lines 477-482). -/
def miniscript_is_non_malleable (p : Option MiniscriptNode) : Bool :=
  match p with
  | none => false
  | some q =>
    match q.node with
    | none => false
    | some nd => nd.IsNonMalleable

/-- `miniscript_needs_signature` (miniscript_wrapper.cpp lines 484-489). -/
def miniscript_needs_signature (p : Option MiniscriptNode) : Bool :=
  match p with
  | none => false
  | some q =>
    match q.node with
    | none => false
    | some nd => nd.NeedsSignature

/-- `miniscript_has_timelock_mix` (miniscript_wrapper.cpp lines 491-498):
timelock mix means the `k` property is NOT set. -/
def miniscript_has_timelock_mix (p : Option MiniscriptNode) : Bool :=
  match p with
  | none => false
  | some q =>
    match q.node with
    | none => false
    | some nd => !(nd.GetType.k)

/-- `miniscript_is_valid_top_level` (miniscript_wrapper.cpp lines 500-505). -/
def miniscript_is_valid_top_level (p : Option MiniscriptNode) : Bool :=
  match p with
  | none => false
  | some q =>
    match q.node with
    | none => false
    | some nd => nd.IsValidTopLevel

/-- `miniscript_check_duplicate_key` (miniscript_wrapper.cpp lines 521-526). -/
def miniscript_check_duplicate_key (p : Option MiniscriptNode) : Bool :=
  match p with
  | none => false
  | some q =>
    match q.node with
    | none => false
    | some nd => nd.CheckDuplicateKey

/-- `miniscript_get_ops` (miniscript_wrapper.cpp lines 528-538): returns
(return value, `*out_ops` written). -/
def miniscript_get_ops (p : Option MiniscriptNode) (out_ops : Bool) :
    Bool × Option Nat :=
  match p with
  | none => (false, none)
  | some q =>
    match q.node with
    | none => (false, none)
    | some nd =>
      if out_ops then
        match nd.ops with
        | some v => (true, some v)
        | none => (false, none)
      else (false, none)

/-- `miniscript_find_insane_sub` (miniscript_wrapper.cpp lines 625-642):
`coreResult` is the external `Node::FindInsaneSub` result; the wrapper
returns null in every path (the clone branch is stubbed and also returns
null). -/
def miniscript_find_insane_sub (p : Option MiniscriptNode)
    (coreResult : Option MsNode) : Option MiniscriptNode :=
  match p with
  | none => none
  | some q =>
    match q.node with
    | none => none
    | some _ =>
      match coreResult with
      | none => none
      | some _ => none

/-- `SatisfactionResult` of miniscript_wrapper.h. -/
structure SatisfactionResult where
  availability : Availability
  stack : Option (List (List Nat))
  stack_sizes : Option (List Nat)
  stack_count : Nat
  error_message : Option String

/-- `miniscript_satisfy` (miniscript_wrapper.cpp lines 659-726): `core`
models the external `Node::Satisfy` call (the availability it returns and
the stack it filled); the stack is copied out whenever non-empty, with
`allocOk` modelling the two mallocs. -/
def miniscript_satisfy (p : Option MiniscriptNode)
    (callbacks : Option SatisfierCallbacks) (_nonmalleable : Bool)
    (core : Availability × List (List Nat)) (allocOk : Bool) :
    SatisfactionResult :=
  match p with
  | none => ⟨.no, none, none, 0, some ("Invalid node: null pointer")⟩
  | some q =>
    match q.node with
    | none => ⟨.no, none, none, 0, some ("Invalid node: null pointer")⟩
    | some _ =>
      match callbacks with
      | none => ⟨.no, none, none, 0, some ("Invalid callbacks: null pointer")⟩
      | some _ =>
        if core.2.isEmpty then ⟨core.1, none, none, 0, none⟩
        else if allocOk then
          ⟨core.1, some core.2, some (core.2.map List.length), core.2.length, none⟩
        else ⟨core.1, none, none, 0, some ("Memory allocation failed")⟩

/-- Modelled from the spec: the core `Node::Satisfy` never hands back
estimated candidates as a final witness — only an Available (`YES`) result
carries a stack; `MAYBE` candidates are used internally for cost
estimation only, and an Impossible result has no candidate at all
(§4.4). -/
def coreSatisfyNoEstimatedWitness (core : Availability × List (List Nat)) : Prop :=
  core.1 ≠ .yes → core.2 = []

/-!
## Descriptor layer and chain parameters

Chain parameters are from stubs.cpp (lines 144-221): three parameter sets
with the `SelectParams` switch and a process-wide current selection whose
default is testnet (line 194).  `descriptor_parse_with_network` and
`descriptor_get_address` are from descriptor_wrapper.cpp.  The underlying
`Parse`, `Descriptor::Expand`, `ExtractDestination` and
`EncodeDestination` are Bitcoin Core code outside this repository.
-/

/-- The fields of `CChainParams` that the stubs set (stubs.cpp). -/
structure ChainParams where
  bech32_hrp : String
  pubkey_prefix : Nat
  script_prefix : Nat
  secret_prefix : Nat
  ext_public_prefix : List Nat
  ext_secret_prefix : List Nat
deriving DecidableEq, Repr

/-- `MainnetChainParams` (stubs.cpp lines 148-158). -/
def mainnetParams : ChainParams :=
  ⟨"bc", 0, 5, 128, [4, 136, 178, 30], [4, 136, 173, 228]⟩

/-- `TestnetChainParams` (stubs.cpp lines 162-172). -/
def testnetParams : ChainParams :=
  ⟨"tb", 111, 196, 239, [4, 53, 135, 207], [4, 53, 131, 148]⟩

/-- `RegtestChainParams` (stubs.cpp lines 176-186). -/
def regtestParams : ChainParams :=
  ⟨"bcrt", 111, 196, 239, [4, 53, 135, 207], [4, 53, 131, 148]⟩

/-- `SelectParams` (stubs.cpp lines 205-221): the chain parameters selected
for a network number; 0 is mainnet, 1 and 2 testnet, 3 regtest, anything
else mainnet. -/
def SelectParams (network : Nat) : ChainParams :=
  match network with
  | 0 => mainnetParams
  | 1 => testnetParams
  | 2 => testnetParams
  | 3 => regtestParams
  | _ => mainnetParams

/-- The initial value of the process-wide current chain parameters:
testnet (stubs.cpp line 194). -/
def defaultChainParams : ChainParams := testnetParams

/-- A `CTxDestination` as far as address encoding is concerned: the
witness-program payload extracted from the expanded script. -/
structure CTxDestination where
  payload : String
deriving DecidableEq, Repr

/-- Modelled from the spec: `EncodeDestination` (key_io, outside this
repository) encodes the destination using the currently selected network's
encoding rules — here the bech32 human-readable part of the current global
chain parameters, as set up by stubs.cpp. -/
def encodeDestination (params : ChainParams) (dest : CTxDestination) : String :=
  params.bech32_hrp ++ "1" ++ dest.payload

/-- Modelled from the spec: a parsed descriptor (the descriptor layer is an
external collaborator, §6); all the address path needs of it is the
destination its script expands to at a position
(`Descriptor::Expand` + `ExtractDestination`). -/
structure DescriptorNode where
  expandDest : Nat → Option CTxDestination

/-- `DescriptorResult` of descriptor_wrapper.h. -/
structure DescriptorResult where
  success : Bool
  error_message : Option String

/-- `descriptor_parse_with_network` (descriptor_wrapper.cpp lines 65-107):
under the params mutex it selects the chain parameters for `network` and
then runs the external parser (`coreParse`, modelling `Parse` of
script/descriptor as a function of the descriptor text and the selected
parameters).  Returns ((result, `*out_node`), the global chain parameters
after the call). -/
def descriptor_parse_with_network
    (coreParse : String → ChainParams → Option DescriptorNode)
    (g : ChainParams) (descStr : Option String) (network : Nat)
    (outProvided : Bool) :
    (DescriptorResult × Option DescriptorNode) × ChainParams :=
  match descStr, outProvided with
  | none, _ => ((⟨false, some ("Invalid arguments: null pointer")⟩, none), g)
  | _, false => ((⟨false, some ("Invalid arguments: null pointer")⟩, none), g)
  | some s, true =>
    let g2 := SelectParams network
    match coreParse s g2 with
    | none => ((⟨false, some ("Failed to parse descriptor")⟩, none), g2)
    | some node => ((⟨true, none⟩, some node), g2)

/-- `descriptor_get_address` (descriptor_wrapper.cpp lines 169-225): the
node's script is expanded at `pos` and the destination encoded with
`EncodeDestination`, which uses the ambient global chain parameters `g`;
the `network` argument is accepted but never used (the code keeps "the
default encoding"). -/
def descriptor_get_address (g : ChainParams) (node : Option DescriptorNode)
    (pos : Nat) (network : Nat) : Option String :=
  match node with
  | none => none
  | some d =>
    match d.expandDest pos with
    | none => none
    | some dest => some (encodeDestination g dest)

/-!
## Claim theorems
-/

/-- C1: for every input string and context, if `miniscript_from_string` (or
`miniscript_from_script`) returns success, the node stored in `*out_node`
holds an inner node satisfying `IsValid` (the wrapper itself rejects any
parse result that is not type-valid); if it returns failure, `*out_node` is
left null, `success` is false and a descriptive `error_message` is set —
never partial output. -/
theorem c1_parse_valid_or_clean_failure (input : List Nat) (ctx : Nat)
    (outcome : CoreParse) (script : List Nat) :
    (let r := miniscript_from_string (some input) ctx true outcome
     (r.1.success = true →
        ∃ q, r.2 = some q ∧ ∃ nd, q.node = some nd ∧ nd.IsValid = true) ∧
     (r.1.success = false → r.2 = none ∧ r.1.error_message ≠ none)) ∧
    (let r := miniscript_from_script (some script) ctx true outcome
     (r.1.success = true →
        ∃ q, r.2 = some q ∧ ∃ nd, q.node = some nd ∧ nd.IsValid = true) ∧
     (r.1.success = false → r.2 = none ∧ r.1.error_message ≠ none)) := by
  constructor
  · unfold miniscript_from_string
    cases hc : ctxOfC ctx with
    | none => simp
    | some ms =>
      cases outcome with
      | threw msg => simp
      | failed => simp
      | ok nd =>
        by_cases hv : nd.IsValid
        · simp only [hv, if_true]
          exact ⟨fun _ => ⟨⟨some nd, ms⟩, rfl, nd, rfl, hv⟩, by simp⟩
        · simp only [hv, if_false]
          simp [hv]
  · unfold miniscript_from_script
    cases hc : ctxOfC ctx with
    | none => simp
    | some ms =>
      cases outcome with
      | threw msg => simp
      | failed => simp
      | ok nd =>
        by_cases hv : nd.IsValid
        · simp only [hv, if_true]
          exact ⟨fun _ => ⟨⟨some nd, ms⟩, rfl, nd, rfl, hv⟩, by simp⟩
        · simp only [hv, if_false]
          simp [hv]

/-- A type with every property bit set, for concrete witnesses. -/
def allBitsType : MsType :=
  ⟨true, true, true, true, true, true, true, true, true, true, true, true,
    true, true, true⟩

/-- A fully valid sample node, for concrete witnesses. -/
def sampleNode : MsNode :=
  ⟨.true_, allBitsType, true, true, true, true, true, true, some 0, some 0,
    some 0, some 0, 1⟩

theorem c1_witness :
    (miniscript_from_string (some (strBytes ("1"))) 0 true
        (.ok sampleNode)).1.success = true ∧
    (∃ q, (miniscript_from_string (some (strBytes ("1"))) 0 true
        (.ok sampleNode)).2 = some q ∧
      ∃ nd, q.node = some nd ∧ nd.IsValid = true) ∧
    (miniscript_from_string (some (strBytes ("1"))) 2 true .failed).1.success
        = false ∧
    (miniscript_from_string (some (strBytes ("1"))) 2 true .failed).2 = none ∧
    (miniscript_from_string (some (strBytes ("1"))) 2 true
        .failed).1.error_message ≠ none := by
  have h := c1_parse_valid_or_clean_failure (strBytes ("1")) 0 (.ok sampleNode) []
  have h2 := c1_parse_valid_or_clean_failure (strBytes ("1")) 2 .failed []
  refine ⟨by rfl, h.1.1 (by rfl), by rfl, (h2.1.2 (by rfl)).1, (h2.1.2 (by rfl)).2⟩

/-- C2: when the core `Satisfy` respects the spec's rule that estimated
(`MAYBE`) candidates are never returned as a final witness, a
`miniscript_satisfy` result with availability `MAYBE` carries no witness
stack: `stack` is null and `stack_count` is 0. -/
theorem c2_maybe_has_no_stack (p : Option MiniscriptNode)
    (cbs : Option SatisfierCallbacks) (nm : Bool)
    (core : Availability × List (List Nat)) (allocOk : Bool)
    (hspec : coreSatisfyNoEstimatedWitness core) :
    (miniscript_satisfy p cbs nm core allocOk).availability = .maybe →
      (miniscript_satisfy p cbs nm core allocOk).stack = none ∧
      (miniscript_satisfy p cbs nm core allocOk).stack_sizes = none ∧
      (miniscript_satisfy p cbs nm core allocOk).stack_count = 0 := by
  intro hav
  obtain ⟨avail, stack⟩ := core
  cases p with
  | none => simp [miniscript_satisfy] at hav
  | some q =>
    cases hq : q.node with
    | none => simp [miniscript_satisfy, hq] at hav
    | some nd =>
      cases cbs with
      | none => simp [miniscript_satisfy, hq] at hav
      | some cb =>
        have havail : avail = Availability.maybe := by
          simp only [miniscript_satisfy, hq] at hav
          split at hav
          · exact hav
          · split at hav
            · exact hav
            · exact hav
        have hstack : stack = [] := hspec (by simp [havail])
        subst hstack
        simp [miniscript_satisfy, hq]

theorem c2_witness :
    coreSatisfyNoEstimatedWitness (Availability.maybe, []) ∧
    (miniscript_satisfy (some ⟨some sampleNode, .p2wsh⟩)
        (some ⟨none, none, none, none, none, none, none⟩) true
        (Availability.maybe, []) true).availability = .maybe ∧
    (miniscript_satisfy (some ⟨some sampleNode, .p2wsh⟩)
        (some ⟨none, none, none, none, none, none, none⟩) true
        (Availability.maybe, []) true).stack = none ∧
    (miniscript_satisfy (some ⟨some sampleNode, .p2wsh⟩)
        (some ⟨none, none, none, none, none, none, none⟩) true
        (Availability.maybe, []) true).stack_count = 0 := by
  have hspec : coreSatisfyNoEstimatedWitness (Availability.maybe, []) :=
    fun _ => rfl
  have h := c2_maybe_has_no_stack (some ⟨some sampleNode, .p2wsh⟩)
    (some ⟨none, none, none, none, none, none, none⟩) true
    (Availability.maybe, []) true hspec (by rfl)
  exact ⟨hspec, by rfl, h.1, h.2.2⟩

/-- C3 (counterexample): the parenthetical tree round-trip
`parse_script(to_script(t)) == t` fails on this code: no spec-conforming
decompilation of `to_script(pk_k("A"))` can return `pk_k("A")` itself,
because the source's `StringKeyContext.FromPKBytes` always produces the
placeholder key "decoded_key", and "A" is not that placeholder. -/
theorem c3_counterexample :
    ¬ FromScriptRec .p2wsh
        (toScript .p2wsh (.pk_k ⟨strBytes ("A")⟩))
        (.pk_k ⟨strBytes ("A")⟩) := by
  intro h
  obtain ⟨_, h2⟩ := h
  simp [rekey, strBytes] at h2

/-- C3 (amended): serializing a tree with `miniscript_to_script`,
re-parsing those bytes per the spec's decompilation contract, and
serializing again yields bytes identical to the first serialization; a
conforming re-parse exists (the rekeyed tree), and every conforming
re-parse re-serializes to the same bytes — but the re-parsed tree has its
keys replaced by the source's fixed decoder placeholders, so it need not
equal the original tree. -/
theorem c3_script_roundtrip_bytes (ctx : MsCtx) (nd : MsNode) :
    (miniscript_to_script (some ⟨some nd, ctx⟩) true true true).2.1 =
        some (toScript ctx nd.tree) ∧
    FromScriptRec ctx (toScript ctx nd.tree) (rekey nd.tree) ∧
    ∀ t', FromScriptRec ctx (toScript ctx nd.tree) t' →
      toScript ctx t' = toScript ctx nd.tree := by
  refine ⟨rfl, ⟨toScript_rekey ctx nd.tree, rekey_idem nd.tree⟩, ?_⟩
  intro t' h
  exact h.1

theorem c3_witness :
    FromScriptRec .p2wsh
        (toScript .p2wsh (MsTree.pk_k ⟨strBytes ("A")⟩))
        (rekey (MsTree.pk_k ⟨strBytes ("A")⟩)) ∧
    toScript .p2wsh (rekey (MsTree.pk_k ⟨strBytes ("A")⟩)) =
      toScript .p2wsh (MsTree.pk_k ⟨strBytes ("A")⟩) := by
  have h := c3_script_roundtrip_bytes .p2wsh
    ⟨.pk_k ⟨strBytes ("A")⟩, allBitsType, true, true, true, true, true, true,
      some 0, some 0, some 0, some 0, 1⟩
  exact ⟨h.2.1, h.2.2 _ h.2.1⟩

/-- C4: for every syntactically valid text (one the spec-modelled parser
accepts), printing the parsed tree with `miniscript_to_string` and
re-parsing that text in the same context yields exactly the tree parsed
from the original text. -/
theorem c4_text_roundtrip (ctx : MsCtx) (s : List Nat) (t : MsTree)
    (nd : MsNode) (hp : parseText ctx s = some t) (hnd : nd.tree = t) :
    miniscript_to_string (some ⟨some nd, ctx⟩) = some (msPrint t) ∧
    parseText ctx (msPrint t) = some t := by
  refine ⟨by simp [miniscript_to_string, hnd], ?_⟩
  exact parseText_print ctx t (parseText_wf ctx s t hp)

theorem c4_witness :
    parseText .p2wsh (strBytes ("and_v(v:pk_k(A),older(42))")) =
      some (.and_v (.wrap_v (.pk_k ⟨strBytes ("A")⟩)) (.older 42)) ∧
    miniscript_to_string
        (some ⟨some ⟨.and_v (.wrap_v (.pk_k ⟨strBytes ("A")⟩)) (.older 42),
          allBitsType, true, true, true, true, true, true, some 0, some 0,
          some 0, some 0, 1⟩, .p2wsh⟩) =
      some (msPrint (.and_v (.wrap_v (.pk_k ⟨strBytes ("A")⟩)) (.older 42))) ∧
    parseText .p2wsh
        (msPrint (.and_v (.wrap_v (.pk_k ⟨strBytes ("A")⟩)) (.older 42))) =
      some (.and_v (.wrap_v (.pk_k ⟨strBytes ("A")⟩)) (.older 42)) := by
  have hp : parseText .p2wsh (strBytes ("and_v(v:pk_k(A),older(42))")) =
      some (.and_v (.wrap_v (.pk_k ⟨strBytes ("A")⟩)) (.older 42)) := by decide
  have h := c4_text_roundtrip .p2wsh (strBytes ("and_v(v:pk_k(A),older(42))"))
    (.and_v (.wrap_v (.pk_k ⟨strBytes ("A")⟩)) (.older 42))
    ⟨.and_v (.wrap_v (.pk_k ⟨strBytes ("A")⟩)) (.older 42),
      allBitsType, true, true, true, true, true, true, some 0, some 0,
      some 0, some 0, 1⟩ hp rfl
  exact ⟨hp, h.1, h.2⟩

/-- C5: whenever `miniscript_is_sane` returns true, `miniscript_is_valid`,
`miniscript_is_non_malleable` and `miniscript_check_duplicate_key` return
true and `miniscript_has_timelock_mix` returns false (sanity = valid AND
non-malleable AND no duplicate keys AND no timelock-unit mixing). -/
theorem c5_sane_decomposition (p : Option MiniscriptNode)
    (h : miniscript_is_sane p = true) :
    miniscript_is_valid p = true ∧
    miniscript_is_non_malleable p = true ∧
    miniscript_check_duplicate_key p = true ∧
    miniscript_has_timelock_mix p = false := by
  cases p with
  | none => simp [miniscript_is_sane] at h
  | some q =>
    cases hq : q.node with
    | none => simp [miniscript_is_sane, hq] at h
    | some nd =>
      simp only [miniscript_is_sane, hq, MsNode.IsSane, Bool.and_eq_true] at h
      obtain ⟨⟨⟨hv, hm⟩, hd⟩, hk⟩ := h
      simp [miniscript_is_valid, miniscript_is_non_malleable,
        miniscript_check_duplicate_key, miniscript_has_timelock_mix, hq,
        MsNode.IsValid, MsNode.IsNonMalleable, MsNode.CheckDuplicateKey,
        MsNode.GetType, hv, hm, hd, hk]

theorem c5_witness :
    miniscript_is_sane (some ⟨some sampleNode, .p2wsh⟩) = true ∧
    miniscript_is_valid (some ⟨some sampleNode, .p2wsh⟩) = true ∧
    miniscript_is_non_malleable (some ⟨some sampleNode, .p2wsh⟩) = true ∧
    miniscript_check_duplicate_key (some ⟨some sampleNode, .p2wsh⟩) = true ∧
    miniscript_has_timelock_mix (some ⟨some sampleNode, .p2wsh⟩) = false := by
  have hs : miniscript_is_sane (some ⟨some sampleNode, .p2wsh⟩) = true := by decide
  have h := c5_sane_decomposition (some ⟨some sampleNode, .p2wsh⟩) hs
  exact ⟨hs, h.1, h.2.1, h.2.2.1, h.2.2.2⟩

/-- C6 (counterexample): `CallbackSatisfier::ToPKBytes` does not return a
fixed 33-byte vector in the SegwitV0 context for every key: the key string
"0102" scans as hex and yields the 2-byte vector [1, 2]. -/
theorem c6_counterexample :
    CallbackSatisfier.ToPKBytes .p2wsh ⟨strBytes ("0102")⟩ = [1, 2] ∧
    (CallbackSatisfier.ToPKBytes .p2wsh ⟨strBytes ("0102")⟩).length ≠ 33 := by
  decide

/-- C6 (amended): `StringKeyContext.ToPKBytes` always yields the fixed
context width (33 bytes SegwitV0 / 32 bytes Tapscript);
`CallbackSatisfier.ToPKBytes` yields that fixed width only when the key
string is shorter than two characters or fails the hex scan — when the
scan succeeds it returns the decoded bytes, ⌈len/2⌉ of them. -/
theorem c6_key_width (ctx : MsCtx) (key : StringKey) :
    (StringKeyContext.ToPKBytes ctx key).length =
        (if ctx = .tapscript then 32 else 33) ∧
    ((CallbackSatisfier.ToPKBytes ctx key).length =
        (if ctx = .tapscript then 32 else 33) ∨
      (CallbackSatisfier.ToPKBytes ctx key).length =
        (key.str.length + 1) / 2) := by
  constructor
  · cases ctx <;> simp [StringKeyContext.ToPKBytes]
  · unfold CallbackSatisfier.ToPKBytes
    by_cases hl : key.str.length ≥ 2
    · simp only [hl, if_true]
      cases hscan : hexPairScan key.str with
      | none =>
        left
        cases ctx <;> simp [pkPlaceholder]
      | some bytes =>
        right
        exact hexPairScan_length key.str bytes hscan
    · simp only [hl, if_false]
      left
      cases ctx <;> simp [pkPlaceholder]

theorem c6_witness :
    (StringKeyContext.ToPKBytes .p2wsh ⟨strBytes ("0102")⟩).length = 33 ∧
    (CallbackSatisfier.ToPKBytes .p2wsh ⟨strBytes ("0102")⟩).length =
      ((strBytes ("0102")).length + 1) / 2 := by
  have h := c6_key_width .p2wsh ⟨strBytes ("0102")⟩
  refine ⟨by simpa using h.1, ?_⟩
  rcases h.2 with h2 | h2
  · exact absurd h2 (by decide)
  · exact h2

/-- The sign callback of the C7 counterexample: reports `MAYBE` and writes
no signature bytes. -/
def maybeNoSigCallbacks : SatisfierCallbacks :=
  ⟨some (fun _ => ⟨.maybe, none⟩), none, none, none, none, none, none⟩

/-- C7 (counterexample): the engine does fabricate signature content — when
the caller's sign callback reports `MAYBE` and supplies no bytes,
`CallbackSatisfier::Sign` fabricates a 72-byte dummy signature filled with
0x30, bytes that did not originate from the callback. -/
theorem c7_counterexample :
    CallbackSatisfier.Sign .p2wsh (some maybeNoSigCallbacks) ⟨[]⟩ =
        (.maybe, some (List.replicate 72 48)) ∧
    (List.replicate 72 48 : List Nat) ≠ [] := by
  constructor
  · rfl
  · decide

/-- Complete case characterization of `CallbackSatisfier::Sign` for
non-null callbacks with a sign function. -/
theorem sign_characterization (ctx : MsCtx) (cb : SatisfierCallbacks)
    (f : List Nat → CbReturn) (key : StringKey)
    (hf : cb.sign_callback = some f) :
    CallbackSatisfier.Sign ctx (some cb) key =
      (match (f (CallbackSatisfier.ToPKBytes ctx key)).avail,
          (f (CallbackSatisfier.ToPKBytes ctx key)).out with
      | .yes, some l => if l.length > 0 then (.yes, some l) else (.no, none)
      | .yes, none => (.no, none)
      | .maybe, some l =>
        if l.length > 0 then (.maybe, some l)
        else (.maybe, some (List.replicate 72 48))
      | .maybe, none => (.maybe, some (List.replicate 72 48))
      | .no, _ => (.no, none)) := by
  unfold CallbackSatisfier.Sign
  dsimp only
  rw [hf]

/-- C7 (amended): every signature the engine reports Available (`YES`)
originates verbatim from the caller-supplied sign callback (and the engine
reports nothing when the callbacks are null); the engine fabricates
signature bytes only on the `MAYBE` size-estimation path, where the
returned buffer is either the callback's own bytes or the fixed 72-byte
0x30 dummy. -/
theorem c7_signatures_originate_from_callback (ctx : MsCtx)
    (cb : SatisfierCallbacks) (f : List Nat → CbReturn) (key : StringKey)
    (hf : cb.sign_callback = some f) :
    ((CallbackSatisfier.Sign ctx (some cb) key).1 = .yes →
      ∃ sig, (f (CallbackSatisfier.ToPKBytes ctx key)).avail = .yes ∧
        (f (CallbackSatisfier.ToPKBytes ctx key)).out = some sig ∧
        sig.length > 0 ∧
        (CallbackSatisfier.Sign ctx (some cb) key).2 = some sig) ∧
    ((CallbackSatisfier.Sign ctx (some cb) key).1 = .maybe →
      (CallbackSatisfier.Sign ctx (some cb) key).2 =
          (f (CallbackSatisfier.ToPKBytes ctx key)).out ∨
        (CallbackSatisfier.Sign ctx (some cb) key).2 =
          some (List.replicate 72 48)) ∧
    CallbackSatisfier.Sign ctx none key = (.no, none) := by
  have heq := sign_characterization ctx cb f key hf
  refine ⟨?_, ?_, rfl⟩
  · intro hav
    rw [heq] at hav ⊢
    cases ha : (f (CallbackSatisfier.ToPKBytes ctx key)).avail with
    | yes =>
      cases ho : (f (CallbackSatisfier.ToPKBytes ctx key)).out with
      | none => simp [ha, ho] at hav
      | some l =>
        by_cases hlen : l.length > 0
        · refine ⟨l, rfl, rfl, hlen, ?_⟩
          simp [hlen]
        · simp [ha, ho, hlen] at hav
    | maybe =>
      cases ho : (f (CallbackSatisfier.ToPKBytes ctx key)).out with
      | none => simp [ha, ho] at hav
      | some l =>
        by_cases hlen : l.length > 0
        · simp [ha, ho, hlen] at hav
        · simp [ha, ho, hlen] at hav
    | no =>
      cases ho : (f (CallbackSatisfier.ToPKBytes ctx key)).out <;>
        simp [ha, ho] at hav
  · intro hav
    rw [heq] at hav ⊢
    cases ha : (f (CallbackSatisfier.ToPKBytes ctx key)).avail with
    | yes =>
      cases ho : (f (CallbackSatisfier.ToPKBytes ctx key)).out with
      | none => simp [ha, ho] at hav
      | some l =>
        by_cases hlen : l.length > 0
        · simp [ha, ho, hlen] at hav
        · simp [ha, ho, hlen] at hav
    | maybe =>
      cases ho : (f (CallbackSatisfier.ToPKBytes ctx key)).out with
      | none =>
        right
        simp [ha, ho]
      | some l =>
        by_cases hlen : l.length > 0
        · left
          simp [ha, ho, hlen]
        · right
          simp [ha, ho, hlen]
    | no =>
      cases ho : (f (CallbackSatisfier.ToPKBytes ctx key)).out <;>
        simp [ha, ho] at hav

/-- The sign callback of the C7 witness: reports `YES` with a real
3-byte signature. -/
def yesSigCallbacks : SatisfierCallbacks :=
  ⟨some (fun _ => ⟨.yes, some [9, 8, 7]⟩), none, none, none, none, none, none⟩

theorem c7_witness :
    (CallbackSatisfier.Sign .p2wsh (some yesSigCallbacks) ⟨[]⟩).1 = .yes ∧
    ∃ sig,
      ((fun _ => (⟨.yes, some [9, 8, 7]⟩ : CbReturn))
          (CallbackSatisfier.ToPKBytes .p2wsh ⟨[]⟩)).avail = .yes ∧
      ((fun _ => (⟨.yes, some [9, 8, 7]⟩ : CbReturn))
          (CallbackSatisfier.ToPKBytes .p2wsh ⟨[]⟩)).out = some sig ∧
      sig.length > 0 ∧
      (CallbackSatisfier.Sign .p2wsh (some yesSigCallbacks) ⟨[]⟩).2 = some sig := by
  have h := c7_signatures_originate_from_callback .p2wsh yesSigCallbacks
    (fun _ => ⟨.yes, some [9, 8, 7]⟩) ⟨[]⟩ rfl
  exact ⟨by rfl, h.1 (by rfl)⟩

/-- A sample parsed descriptor whose position-0 script extracts to a fixed
witness destination. -/
def demoDescriptor : DescriptorNode :=
  ⟨fun _ => some ⟨"qdemo"⟩⟩

/-- C8: `descriptor_get_address` ignores its `DescriptorNetwork` argument
and encodes with the ambient process-wide chain parameters (default
testnet): with the mainnet argument (network 0, whose `SelectParams` image
is the mainnet parameters with hrp "bc") and the default ambient state, the
address comes out testnet-encoded; two calls with identical arguments under
different ambient parameters disagree; and the network argument is
irrelevant to the result. -/
theorem c8_address_uses_ambient_params :
    descriptor_get_address defaultChainParams (some demoDescriptor) 0 0 =
        some ("tb1qdemo") ∧
    SelectParams 0 = mainnetParams ∧
    mainnetParams.bech32_hrp = "bc" ∧
    descriptor_get_address mainnetParams (some demoDescriptor) 0 0 ≠
      descriptor_get_address testnetParams (some demoDescriptor) 0 0 ∧
    descriptor_get_address defaultChainParams (some demoDescriptor) 0 0 =
      descriptor_get_address defaultChainParams (some demoDescriptor) 0 3 := by
  refine ⟨rfl, rfl, rfl, ?_, rfl⟩
  simp [descriptor_get_address, demoDescriptor, encodeDestination,
    mainnetParams, testnetParams]

/-- C9: `miniscript_find_insane_sub` returns null for every input node and
every result of the underlying `FindInsaneSub`, including when an insane
sub-expression was located (the clone branch is stubbed to null). -/
theorem c9_find_insane_sub_always_null (p : Option MiniscriptNode)
    (coreResult : Option MsNode) :
    miniscript_find_insane_sub p coreResult = none := by
  cases p with
  | none => rfl
  | some q =>
    cases hq : q.node with
    | none => simp [miniscript_find_insane_sub, hq]
    | some nd =>
      cases coreResult <;> simp [miniscript_find_insane_sub, hq]

/-- C10: every modelled accessor and operation is total on null arguments:
a null node pointer, a null inner `NodeRef`, or a null output pointer
yields false / null / an error-bearing result, and nothing is written
through any output parameter. -/
theorem c10_null_totality (ctxn : MsCtx) (nd : MsNode) (b1 b2 : Bool)
    (cbs : Option SatisfierCallbacks) (nm : Bool)
    (core : Availability × List (List Nat)) (alloc : Bool)
    (cr : Option MsNode) :
    miniscript_is_valid none = false ∧
    miniscript_is_valid (some ⟨none, ctxn⟩) = false ∧
    miniscript_is_sane none = false ∧
    miniscript_is_sane (some ⟨none, ctxn⟩) = false ∧
    miniscript_to_string none = none ∧
    miniscript_to_string (some ⟨none, ctxn⟩) = none ∧
    miniscript_to_script none b1 b2 alloc = (false, none, none) ∧
    miniscript_to_script (some ⟨none, ctxn⟩) b1 b2 alloc = (false, none, none) ∧
    ((b1 && b2) = false →
      miniscript_to_script (some ⟨some nd, ctxn⟩) b1 b2 alloc =
        (false, none, none)) ∧
    miniscript_get_ops none b1 = (false, none) ∧
    miniscript_get_ops (some ⟨none, ctxn⟩) b1 = (false, none) ∧
    miniscript_get_ops (some ⟨some nd, ctxn⟩) false = (false, none) ∧
    miniscript_find_insane_sub none cr = none ∧
    miniscript_find_insane_sub (some ⟨none, ctxn⟩) cr = none ∧
    (miniscript_satisfy none cbs nm core alloc).availability = .no ∧
    (miniscript_satisfy none cbs nm core alloc).stack = none ∧
    (miniscript_satisfy none cbs nm core alloc).stack_count = 0 ∧
    (miniscript_satisfy none cbs nm core alloc).error_message ≠ none ∧
    (miniscript_satisfy (some ⟨none, ctxn⟩) cbs nm core alloc).stack = none ∧
    (miniscript_satisfy (some ⟨some nd, ctxn⟩) none nm core alloc).stack
        = none ∧
    (miniscript_satisfy (some ⟨some nd, ctxn⟩) none nm core alloc).error_message
        ≠ none := by
  refine ⟨rfl, rfl, rfl, rfl, rfl, rfl, rfl, rfl, ?_, ?_, rfl, rfl, rfl,
    rfl, rfl, rfl, rfl, by simp [miniscript_satisfy], rfl, rfl,
    by simp [miniscript_satisfy]⟩
  · intro hb
    cases b1 <;> cases b2 <;> simp_all [miniscript_to_script]
  · cases b1 <;> rfl

theorem c10_witness :
    (true && false) = false ∧
    miniscript_to_script
        (some ⟨some sampleNode, .p2wsh⟩) true false true = (false, none, none) ∧
    miniscript_is_valid none = false ∧
    miniscript_to_string none = none ∧
    (miniscript_satisfy none none false (Availability.yes, []) true).stack
      = none := by
  have h := c10_null_totality .p2wsh sampleNode true false none false
    (Availability.yes, []) true none
  exact ⟨by rfl, h.2.2.2.2.2.2.2.2.1 (by rfl), h.1, h.2.2.2.2.1,
    h.2.2.2.2.2.2.2.2.2.2.2.2.2.2.2.1⟩
